import Mathlib

/-!
Verification development for the `base_ontology` synchronization engine
(py4jps data model): a typed in-memory mirror of a triple store with an
identity registry, cached snapshots, a depth-bounded recursive diff engine
(`collect_diff_to_graph`) and a depth-bounded recursive pull engine
(`pull_from_kg`).

The Python source is shallowly embedded: Python objects live in a heap
addressed by naturals, the process-wide `GLOBAL_OBJECT_LOOKUP` is a map from
IRI strings to addresses, `rdflib.Graph` is a finite set of triples, and the
mutating recursive methods become fuel-indexed state-passing functions
returning `Except` (exceptions) or carrying the mutated world.
-/

/-- IRIs are opaque strings. -/
abbrev Iri := String

/-- Heap addresses stand for Python object identity. -/
abbrev Addr := Nat

/-- Literal values that can sit in a data property's range.  `lBad` stands
for a Python value that `rdflib.Literal` cannot represent (the supported
kinds — numeric, string, boolean, timestamp — are the other constructors). -/
inductive Lit where
  | lInt (n : Int)
  | lStr (s : String)
  | lBool (b : Bool)
  | lTime (t : Int)
  | lBad (tag : Nat)
deriving DecidableEq, Repr

/-- Object position of an RDF triple: an IRI node or a literal. -/
inductive GObj where
  | iri (i : Iri)
  | lit (l : Lit)
deriving DecidableEq, Repr

/-- An RDF triple. -/
structure Triple where
  s : Iri
  p : Iri
  o : GObj
deriving DecidableEq, Repr

/-- `rdflib.Graph` is modelled as a finite set of triples (adding an
existing triple is a no-op there, and the engine only ever adds). -/
abbrev Graph := Finset Triple

/-- One element of an `ObjectProperty.range` Python set: a live
`BaseOntology` instance (heap reference), a bare IRI string, or a value of
an unsupported type (the `else` branches of the source raise on those). -/
inductive OElem where
  | ref (a : Addr)
  | iriStr (i : Iri)
  | bad (tag : Nat)
deriving DecidableEq, Repr

/-- A declared property field of a concrete `BaseOntology` class, holding
its predicate IRI, the live range and the `_latest_cache` entry for the
field (`none` when the cache dict has no entry for it). -/
inductive FieldSt where
  | obj (pred : Iri) (range : List OElem) (cache : Option (List OElem))
  | dat (pred : Iri) (range : List Lit) (cache : Option (List Lit))
deriving DecidableEq, Repr

/-- The state of one `BaseOntology` instance: pydantic fields plus the
private attributes `_latest_cache` (the property part lives inside
`fields`, the `rdf_type`/`rdfs_comment` entries here) and `_exist_in_kg`.
A `cache_rdfs_comment` of `none` models both an absent cache key and a
cached `None` (the source only ever reads it with `.get`, which conflates
the two). -/
structure InstState where
  instance_iri : Iri
  rdf_type : Iri
  rdfs_comment : Option String
  cache_rdf_type : Option Iri
  cache_rdfs_comment : Option String
  fields : List FieldSt
  exist_in_kg : Bool
deriving DecidableEq, Repr

/-- The registry type of `GLOBAL_OBJECT_LOOKUP`. -/
abbrev Reg := Iri → Option Addr

/-- The mutable world: the Python heap, the bump allocator for fresh
objects and the process-wide `GLOBAL_OBJECT_LOOKUP`. -/
structure World where
  heap : Addr → InstState
  next : Addr
  reg : Reg

/-- `get_ontology_object_from_lookup`: plain lookup. -/
def get_ontology_object_from_lookup (r : Reg) (iri : Iri) : Option Addr :=
  r iri

/-- `set_new_ontology_object`: insert-if-absent into the global lookup. -/
def set_new_ontology_object (r : Reg) (iri : Iri) (a : Addr) : Reg :=
  if r iri = none then fun j => if j = iri then some a else r j else r

/-- `clear_ontology_object_lookup`: reset the lookup. -/
def clear_ontology_object_lookup : Reg :=
  fun _ => none

/-- A registration event, for reasoning about whole lookup lifetimes. -/
structure RegOp where
  iri : Iri
  addr : Addr

/-- Replay a sequence of `set_new_ontology_object` calls. -/
def applyRegOps (r : Reg) : List RegOp → Reg
  | [] => r
  | op :: ops => applyRegOps (set_new_ontology_object r op.iri op.addr) ops

/-- The identifier a range element denotes: `BaseOntology.__hash__` is the
hash of `instance_iri`, so a live reference hashes as its IRI. -/
def elemIri (w : World) : OElem → Iri
  | .ref a => (w.heap a).instance_iri
  | .iriStr i => i
  | .bad tag => String.append "?unsupported?" (toString tag)

/-- Key used by Python set membership over a mixed range: live instances
and bare strings compare by identifier (`__hash__`/`__eq__` are both
IRI-based), unsupported values only by their own identity. -/
inductive EKey where
  | id (i : Iri)
  | other (tag : Nat)
deriving DecidableEq, Repr

/-- The Python-set key of a range element. -/
def elemKey (w : World) : OElem → EKey
  | .ref a => .id (w.heap a).instance_iri
  | .iriStr i => .id i
  | .bad tag => .other tag

/-- One Python set insertion: a duplicate key is dropped, keeping the
first-inserted representative. -/
def pyInsert (w : World) (s : List OElem) (o : OElem) : List OElem :=
  if s.any (fun x => elemKey w x = elemKey w o) then s else s ++ [o]

/-- `set(...)` over a list of range elements. -/
def pySet (w : World) (l : List OElem) : List OElem :=
  l.foldl (pyInsert w) []

/-- `set(...)` over literal values (data property ranges). -/
def pySetL : List Lit → List Lit
  | [] => []
  | x :: xs => if x ∈ xs then pySetL xs else x :: pySetL xs

/-- `set(...)` over a list of IRIs (string-only ranges, fetched values). -/
def pySetS : List Iri → List Iri
  | [] => []
  | x :: xs => if x ∈ xs then pySetS xs else x :: pySetS xs

/-- Exceptions the diff engine can raise: the `TypeError`s of the source
and fuel exhaustion of the embedding (the Python recursion either
terminates or blows the stack; `fuelOut` stands for the latter). -/
inductive DErr where
  | typeError
  | fuelOut
deriving DecidableEq, Repr

/-- Decidable equality for `Except` results (used to evaluate concrete
scenarios). -/
instance {e a : Type} [DecidableEq e] [DecidableEq a] : DecidableEq (Except e a) := fun x y =>
  match x, y with
  | .ok v, .ok u =>
    if h : v = u then isTrue (congrArg Except.ok h)
    else isFalse (fun hh => h (Except.ok.inj hh))
  | .error v, .error u =>
    if h : v = u then isTrue (congrArg Except.error h)
    else isFalse (fun hh => h (Except.error.inj hh))
  | .ok _, .error _ => isFalse (fun hh => Except.noConfusion hh)
  | .error _, .ok _ => isFalse (fun hh => Except.noConfusion hh)

/-- Result monad of the diff engine: the threaded world plus the two
accumulated graphs, or an exception. -/
abbrev DiffM := Except DErr (World × Graph × Graph)

/-- `flag_collect = abs(recursive_depth) > 0` (line 454 of the source). -/
def flag_collect (d : Int) : Bool :=
  decide (0 < |d|)

/-- `recursive_depth = max(recursive_depth - 1, 0) if recursive_depth > -1
else max(recursive_depth - 1, -1)` (line 455 of the source). -/
def next_recursive_depth (d : Int) : Int :=
  if d > -1 then max (d - 1) 0 else max (d - 1) (-1)

/-- `RDF.type`. -/
def rdfTypeIri : Iri := "http://www.w3.org/1999/02/22-rdf-syntax-ns#type"

/-- `RDFS.comment`. -/
def rdfsCommentIri : Iri := "http://www.w3.org/2000/01/rdf-schema#comment"

/-- The data of a `BaseProperty` object as the diff engine reads it:
`predicate_iri` and `range`. -/
structure OPState where
  predicate_iri : Iri
  range : List OElem
deriving DecidableEq, Repr

/-- The data of a `DataProperty` object as the diff engine reads it. -/
structure DPState where
  predicate_iri : Iri
  range : List Lit
deriving DecidableEq, Repr

/-- The loop over `diff_to_add` of `ObjectProperty.collect_range_diff_to_graph`
(lines 463-476): add the edge, and when collecting recursively, recurse into
a live instance directly, or into the looked-up resident instance of a bare
IRI (skipping unresolved ones); any other element type raises `TypeError`. -/
def op_diff_add_loop (recurse : World → Addr → Graph → Graph → DiffM)
    (subject pred : Iri) (flag : Bool) :
    List OElem → World → Graph → Graph → DiffM
  | [], w, gRm, gAdd => .ok (w, gRm, gAdd)
  | .ref a :: os, w, gRm, gAdd =>
    let gAdd' := insert ⟨subject, pred, .iri (w.heap a).instance_iri⟩ gAdd
    if flag then
      match recurse w a gRm gAdd' with
      | .ok (w', gRm', gAdd'') => op_diff_add_loop recurse subject pred flag os w' gRm' gAdd''
      | .error e => .error e
    else op_diff_add_loop recurse subject pred flag os w gRm gAdd'
  | .iriStr i :: os, w, gRm, gAdd =>
    let gAdd' := insert ⟨subject, pred, .iri i⟩ gAdd
    if flag then
      match w.reg i with
      | some a =>
        match recurse w a gRm gAdd' with
        | .ok (w', gRm', gAdd'') => op_diff_add_loop recurse subject pred flag os w' gRm' gAdd''
        | .error e => .error e
      | none => op_diff_add_loop recurse subject pred flag os w gRm gAdd'
    else op_diff_add_loop recurse subject pred flag os w gRm gAdd'
  | .bad _ :: _, _, _, _ => .error .typeError

/-- The loop over `diff_to_remove` (lines 478-491), mirror image of
`op_diff_add_loop` with the edge going to the remove graph. -/
def op_diff_remove_loop (recurse : World → Addr → Graph → Graph → DiffM)
    (subject pred : Iri) (flag : Bool) :
    List OElem → World → Graph → Graph → DiffM
  | [], w, gRm, gAdd => .ok (w, gRm, gAdd)
  | .ref a :: os, w, gRm, gAdd =>
    let gRm' := insert ⟨subject, pred, .iri (w.heap a).instance_iri⟩ gRm
    if flag then
      match recurse w a gRm' gAdd with
      | .ok (w', gRm'', gAdd') => op_diff_remove_loop recurse subject pred flag os w' gRm'' gAdd'
      | .error e => .error e
    else op_diff_remove_loop recurse subject pred flag os w gRm' gAdd
  | .iriStr i :: os, w, gRm, gAdd =>
    let gRm' := insert ⟨subject, pred, .iri i⟩ gRm
    if flag then
      match w.reg i with
      | some a =>
        match recurse w a gRm' gAdd with
        | .ok (w', gRm'', gAdd') => op_diff_remove_loop recurse subject pred flag os w' gRm'' gAdd'
        | .error e => .error e
      | none => op_diff_remove_loop recurse subject pred flag os w gRm' gAdd
    else op_diff_remove_loop recurse subject pred flag os w gRm' gAdd
  | .bad _ :: _, _, _, _ => .error .typeError

/-- The loop over `self.range.intersection(cache.range)` (lines 495-505):
no edges, only recursion into resolvable instances; unsupported elements
still raise `TypeError`. -/
def op_intersection_loop (recurse : World → Addr → Graph → Graph → DiffM) :
    List OElem → World → Graph → Graph → DiffM
  | [], w, gRm, gAdd => .ok (w, gRm, gAdd)
  | .ref a :: os, w, gRm, gAdd =>
    (match recurse w a gRm gAdd with
     | .ok (w', gRm', gAdd') => op_intersection_loop recurse os w' gRm' gAdd'
     | .error e => .error e)
  | .iriStr i :: os, w, gRm, gAdd =>
    (match w.reg i with
     | some a =>
       match recurse w a gRm gAdd with
       | .ok (w', gRm', gAdd') => op_intersection_loop recurse os w' gRm' gAdd'
       | .error e => .error e
     | none => op_intersection_loop recurse os w gRm gAdd)
  | .bad _ :: _, _, _, _ => .error .typeError

/-- `diff_to_add = self.range - cache.range` as executed on Python sets:
elements of the live range whose key does not occur in the cached range. -/
def rangeDiff (w : World) (xs ys : List OElem) : List OElem :=
  xs.filter (fun o => ¬ (ys.any (fun y => elemKey w y = elemKey w o)))

/-- `self.range.intersection(cache.range)` over Python sets, keeping the
representatives of the live range (the receiver set). -/
def rangeInter (w : World) (xs ys : List OElem) : List OElem :=
  xs.filter (fun o => ys.any (fun y => elemKey w y = elemKey w o))

/-- `ObjectProperty.collect_range_diff_to_graph` (lines 445-507): compute
both set differences, run the add loop, the remove loop and — when the
depth budget permits — the intersection loop, with the decremented budget
baked into `recurse`. -/
def op_collect_range_diff_to_graph (recurse : Int → World → Addr → Graph → Graph → DiffM)
    (w : World) (subject : Iri) (self cache : OPState)
    (gRm gAdd : Graph) (d : Int) : DiffM :=
  match op_diff_add_loop (recurse (next_recursive_depth d)) subject self.predicate_iri
      (flag_collect d) (rangeDiff w self.range cache.range) w gRm gAdd with
  | .error e => .error e
  | .ok (w1, gRm1, gAdd1) =>
    match op_diff_remove_loop (recurse (next_recursive_depth d)) subject self.predicate_iri
        (flag_collect d) (rangeDiff w cache.range self.range) w1 gRm1 gAdd1 with
    | .error e => .error e
    | .ok (w2, gRm2, gAdd2) =>
      if flag_collect d then
        op_intersection_loop (recurse (next_recursive_depth d)) (rangeInter w self.range cache.range) w2 gRm2 gAdd2
      else .ok (w2, gRm2, gAdd2)

/-- `rdflib.Literal(object)` as the source uses it: supported literal
kinds embed, an unsupported kind makes `add_property_to_graph` raise.
Modelled from the spec: the supported literal kinds are numeric, string,
boolean and timestamp (`rdflib` itself is outside this repository). -/
def litNode : Lit → Option GObj
  | .lBad _ => none
  | l => some (.lit l)

/-- `DataProperty.add_property_to_graph` (lines 558-564): add the literal
triple, raising `TypeError` when `rdflib` cannot represent the value. -/
def add_property_to_graph (subject pred : Iri) (object : Lit) (g : Graph) :
    Except DErr Graph :=
  match litNode object with
  | some node => .ok (insert ⟨subject, pred, node⟩ g)
  | none => .error .typeError

/-- Emission loop of `DataProperty.collect_range_diff_to_graph` over one
of the two set differences. -/
def dp_diff_loop (subject pred : Iri) : List Lit → Graph → Except DErr Graph
  | [], g => .ok g
  | x :: xs, g =>
    match add_property_to_graph subject pred x g with
    | .ok g' => dp_diff_loop subject pred xs g'
    | .error e => .error e

/-- `DataProperty.collect_range_diff_to_graph` (lines 537-556): emit
`cache.range - self.range` into the remove graph, then
`self.range - cache.range` into the add graph. -/
def dp_collect_range_diff_to_graph (subject : Iri) (self cache : DPState)
    (gRm gAdd : Graph) : Except DErr (Graph × Graph) :=
  match dp_diff_loop subject self.predicate_iri (cache.range.filter (fun x => x ∉ self.range)) gRm with
  | .error e => .error e
  | .ok gRm' =>
    match dp_diff_loop subject self.predicate_iri (self.range.filter (fun x => x ∉ cache.range)) gAdd with
    | .error e => .error e
    | .ok gAdd' => .ok (gRm', gAdd')

/-- The loop over the declared property fields inside
`BaseOntology.collect_diff_to_graph` (lines 352-356): each field's live
property diffs against its `_latest_cache` entry (an empty default when
the cache has none), threading both graphs and the world. -/
def fields_diff_loop (recurse : Int → World → Addr → Graph → Graph → DiffM)
    (subject : Iri) (d : Int) :
    List FieldSt → World → Graph → Graph → DiffM
  | [], w, gRm, gAdd => .ok (w, gRm, gAdd)
  | .obj pred rng cache :: fs, w, gRm, gAdd =>
    (match op_collect_range_diff_to_graph recurse w subject ⟨pred, rng⟩ ⟨pred, cache.getD []⟩ gRm gAdd d with
     | .ok (w', gRm', gAdd') => fields_diff_loop recurse subject d fs w' gRm' gAdd'
     | .error e => .error e)
  | .dat pred rng cache :: fs, w, gRm, gAdd =>
    (match dp_collect_range_diff_to_graph subject ⟨pred, rng⟩ ⟨pred, cache.getD []⟩ gRm gAdd with
     | .ok (gRm', gAdd') => fields_diff_loop recurse subject d fs w gRm' gAdd'
     | .error e => .error e)

/-- Heap update at one address. -/
def World.updateInst (w : World) (a : Addr) (f : InstState → InstState) : World :=
  { w with heap := Function.update w.heap a (f (w.heap a)) }

/-- Truthiness of the cached `rdf_type` entry (`bool(None)` and `bool("")`
are false). -/
def truthyCachedType : Option Iri → Bool
  | none => false
  | some s => s ≠ ""

/-- The `rdfs_comment` branch of `collect_diff_to_graph` (lines 362-367),
remove side: the cached comment is emitted when present and different from
the current one. -/
def comment_remove_step (st : InstState) (gRm : Graph) : Graph :=
  if st.cache_rdfs_comment ≠ st.rdfs_comment then
    match st.cache_rdfs_comment with
    | some c => insert ⟨st.instance_iri, rdfsCommentIri, .lit (.lStr c)⟩ gRm
    | none => gRm
  else gRm

/-- The `rdfs_comment` branch, add side. -/
def comment_add_step (st : InstState) (gAdd : Graph) : Graph :=
  if st.cache_rdfs_comment ≠ st.rdfs_comment then
    match st.rdfs_comment with
    | some c => insert ⟨st.instance_iri, rdfsCommentIri, .lit (.lStr c)⟩ gAdd
    | none => gAdd
  else gAdd

/-- Condition of the `rdf_type` branch (line 357): the instance does not
yet exist in the KG and no truthy cached type value exists. -/
def emit_type_flag (st : InstState) : Bool :=
  !st.exist_in_kg && !truthyCachedType st.cache_rdf_type

/-- The `rdf_type` branch, graph side (line 358). -/
def type_add_step (st : InstState) (gAdd : Graph) : Graph :=
  if emit_type_flag st then insert ⟨st.instance_iri, rdfTypeIri, .iri st.rdf_type⟩ gAdd
  else gAdd

/-- The `rdf_type` branch, state side (line 361): `_exist_in_kg` is set
once the type triple has been emitted. -/
def type_world_step (w : World) (a : Addr) : World :=
  if emit_type_flag (w.heap a) then w.updateInst a (fun s => { s with exist_in_kg := true })
  else w

/-- `BaseOntology.collect_diff_to_graph` (lines 351-368), indexed by fuel:
iterate the pydantic fields in declaration order — `rdfs_comment` (scalar
compare against the cache), `rdf_type` (the type triple is emitted once,
when the instance neither `_exist_in_kg` nor has a truthy cached type, and
`_exist_in_kg` is then set), then every declared property field. -/
def collect_diff_to_graph : Nat → Int → World → Addr → Graph → Graph → DiffM
  | 0 => fun _ _ _ _ _ => .error .fuelOut
  | fuel + 1 => fun d w a gRm gAdd =>
    fields_diff_loop (collect_diff_to_graph fuel) (w.heap a).instance_iri d (w.heap a).fields
      (type_world_step w a) (comment_remove_step (w.heap a) gRm)
      (type_add_step (w.heap a) (comment_add_step (w.heap a) gAdd))

/-- `BaseOntology.push_to_kg` (lines 303-310): run the diff starting from
two fresh graphs and hand both to the transport (which lives outside the
world); the graphs are returned for inspection and `_latest_cache` is not
refreshed. -/
def push_to_kg (fuel : Nat) (w : World) (a : Addr) (d : Int) : DiffM :=
  collect_diff_to_graph fuel d w a ∅ ∅

/-- The per-node slice of the batched query result `node_dct`: the
predicate-to-values map for one subject, split by value kind (object
predicates carry IRIs, data predicates carry literals). -/
structure PropsMap where
  objE : List (Iri × List Iri)
  dataE : List (Iri × List Lit)
deriving DecidableEq, Repr

/-- `props.get(op_iri)` for an object predicate. -/
def PropsMap.getObj (pm : PropsMap) (p : Iri) : Option (List Iri) :=
  pm.objE.lookup p

/-- `props.get(dp_iri)` for a data predicate. -/
def PropsMap.getData (pm : PropsMap) (p : Iri) : Option (List Lit) :=
  pm.dataE.lookup p

/-- The transport collaborator (`PySparqlClient`): a batched fetch that
returns the outgoing edges and attributes of the requested IRIs as an
association list (dict iteration order), or fails (`StoreQueryError`). -/
structure Client where
  fetch : List Iri → Option (List (Iri × PropsMap))

/-- A declared field of a concrete ontology class: an object property with
its predicate and the schema id of its range class, or a data property. -/
inductive FieldDecl where
  | objF (pred : Iri) (target : Nat)
  | datF (pred : Iri)
deriving DecidableEq, Repr

/-- A concrete `BaseOntology` subclass: its `rdf_type` and declared fields. -/
structure Schema where
  rdf_type : Iri
  fields : List FieldDecl
deriving DecidableEq, Repr

/-- The collection of declared classes, keyed by schema id (classes may
reference each other cyclically, hence the indirection). -/
abbrev SchemaEnv := Nat → Schema

/-- Result of `pull_from_kg`: the list of pulled instances, a transport
failure (`StoreQueryError`), or fuel exhaustion of the embedding. -/
inductive PullRes where
  | ok (addrs : List Addr)
  | storeErr
  | fuelOut
deriving DecidableEq, Repr

/-- `create_cache` (lines 44-52) applied to one declared field: an object
property's cache holds the range with live instances reduced to their
IRIs (a fresh set, so duplicates collapse), a data property's cache is a
deep copy of the range set. -/
def create_cache_field (w : World) : FieldSt → FieldSt
  | .obj pred rng _ =>
    .obj pred rng (some (pySet w (rng.map (fun o =>
      match o with
      | .ref b => OElem.iriStr (w.heap b).instance_iri
      | x => x))))
  | .dat pred rng _ => .dat pred rng (some (pySetL rng))

/-- Lines 258-261 of `pull_from_kg`: mark the instance as existing in the
KG and rebuild `_latest_cache` from every current field (`create_cache`
per property field, the raw values for `rdf_type` and `rdfs_comment`). -/
def refresh_cache (w : World) (a : Addr) : World :=
  w.updateInst a (fun st =>
    { st with
      exist_in_kg := true
      fields := st.fields.map (create_cache_field w)
      cache_rdf_type := some st.rdf_type
      cache_rdfs_comment := st.rdfs_comment })

/-- The range of the instance's object-property field with the given
predicate (empty when the class does not declare it). -/
def getObjRange (st : InstState) (pred : Iri) : List OElem :=
  match st.fields.find? (fun f =>
    match f with
    | .obj p _ _ => p = pred
    | .dat _ _ _ => false) with
  | some (.obj _ rng _) => rng
  | _ => []

/-- `get_object_property_range_iris` (lines 296-297): the field's range
with live instances reduced to their IRIs. -/
def get_object_property_range_iris (w : World) (st : InstState) (pred : Iri) : List Iri :=
  (getObjRange st pred).map (elemIri w)

/-- The `object_properties_dict`/`data_properties_dict` comprehensions of
`pull_from_kg` (lines 228-240): build the would-be field list for a freshly
fetched node.  For an object predicate present in the fetch, recursion
(when the depth budget permits) pulls the fetched targets and the range
holds the resulting live instances, otherwise the bare IRIs; a transport
failure inside the nested pull aborts everything but keeps the world. -/
def build_fetched_fields (recurse : Nat → List Iri → World → World × PullRes)
    (flag : Bool) (props : PropsMap) :
    List FieldDecl → World → World × Except PullRes (List FieldSt)
  | [], w => (w, .ok [])
  | .objF pred target :: fs, w =>
    (match props.getObj pred with
     | none =>
       match build_fetched_fields recurse flag props fs w with
       | (w', .ok built) => (w', .ok (.obj pred [] none :: built))
       | (w', .error e) => (w', .error e)
     | some os =>
       if flag then
         match recurse target os w with
         | (w1, .ok lst) =>
           match build_fetched_fields recurse flag props fs w1 with
           | (w', .ok built) => (w', .ok (.obj pred (pySet w1 (lst.map OElem.ref)) none :: built))
           | (w', .error e) => (w', .error e)
         | (w1, e) => (w1, .error e)
       else
         match build_fetched_fields recurse flag props fs w with
         | (w', .ok built) => (w', .ok (.obj pred ((pySetS os).map OElem.iriStr) none :: built))
         | (w', .error e) => (w', .error e))
  | .datF pred :: fs, w =>
    (match build_fetched_fields recurse flag props fs w with
     | (w', .ok built) => (w', .ok (.dat pred (pySetL ((props.getData pred).getD [])) none :: built))
     | (w', .error e) => (w', .error e))

/-- Lines 241-250 of `pull_from_kg`: for an instance already resident in
the registry, recursively pull — per declared object-property field, when
the depth budget permits — the IRIs populated in memory minus those in the
freshly fetched edge set; the live ranges themselves are never written. -/
def reconcile_connected (recurse : Nat → List Iri → World → World × PullRes)
    (flag : Bool) (props : PropsMap) (a : Addr) :
    List FieldDecl → World → World × Option PullRes
  | [], w => (w, none)
  | .objF pred target :: fs, w =>
    if flag then
      let mem := get_object_property_range_iris w (w.heap a) pred
      let fetched := (props.getObj pred).getD []
      let diff := (pySetS mem).filter (fun i => i ∉ fetched)
      match recurse target diff w with
      | (w1, .ok _) => reconcile_connected recurse flag props a fs w1
      | (w1, e) => (w1, some e)
    else reconcile_connected recurse flag props a fs w
  | .datF _ :: fs, w => reconcile_connected recurse flag props a fs w

/-- The loop over `node_dct.items()` (lines 210-265): look the IRI up in
the registry first, build the fetched property dicts (side effects of the
nested pulls happen even for resident instances), then either reconcile a
resident instance or construct and register a fresh one; in both cases
mark it as existing, refresh its cache from the now-current state, append
it to the result list and re-register it. -/
def pull_nodes (recurse : Nat → List Iri → World → World × PullRes)
    (env : SchemaEnv) (sid : Nat) (flag : Bool) :
    List (Iri × PropsMap) → World → List Addr → World × PullRes
  | [], w, acc => (w, .ok acc)
  | (iri, props) :: rest, w, acc =>
    let inst? := get_ontology_object_from_lookup w.reg iri
    match build_fetched_fields recurse flag props (env sid).fields w with
    | (w1, .error e) => (w1, e)
    | (w1, .ok newFields) =>
      match inst? with
      | some a =>
        (match reconcile_connected recurse flag props a (env sid).fields w1 with
         | (w2, some e) => (w2, e)
         | (w2, none) =>
           let w3 := refresh_cache w2 a
           let w4 := { w3 with reg := set_new_ontology_object w3.reg iri a }
           pull_nodes recurse env sid flag rest w4 (acc ++ [a]))
      | none =>
        let a := w1.next
        let st : InstState :=
          { instance_iri := iri
            rdf_type := (env sid).rdf_type
            rdfs_comment := none
            cache_rdf_type := none
            cache_rdfs_comment := none
            fields := newFields
            exist_in_kg := false }
        let w2 : World :=
          { heap := Function.update w1.heap a st
            next := a + 1
            reg := set_new_ontology_object w1.reg iri a }
        let w3 := refresh_cache w2 a
        let w4 := { w3 with reg := set_new_ontology_object w3.reg iri a }
        pull_nodes recurse env sid flag rest w4 (acc ++ [a])

/-- `BaseOntology.pull_from_kg` (lines 195-269), indexed by fuel: compute
the recursion flag and the decremented depth, normalize the requested IRIs
to a set, batch-fetch them from the transport (a failure propagates with
the world untouched) and process every returned node. -/
def pull_from_kg : Nat → SchemaEnv → Nat → Client → List Iri → Int → World → World × PullRes
  | 0 => fun _ _ _ _ _ w => (w, .fuelOut)
  | fuel + 1 => fun env sid client iris d w =>
    let flag := flag_collect d
    let d' := next_recursive_depth d
    match client.fetch (pySetS iris) with
    | none => (w, .storeErr)
    | some nodes =>
      pull_nodes (fun target os w' => pull_from_kg fuel env target client os d' w')
        env sid flag nodes w []

/-- Validation failure of property construction (the `Len` constraint of
`as_range_of_object_property`/`as_range_of_data_property`, pydantic's
assignment-time range-size validation — `CardinalityError` in the spec's
taxonomy). -/
inductive VErr where
  | cardinalityError
deriving DecidableEq, Repr

/-- Constructing an `ObjectProperty` whose `range` is annotated with
`as_range_of_object_property(t, min_cardinality, max_cardinality)`
(lines 55-56 plus `BaseProperty.__init__`, lines 84-94): the input is
normalized to a set, then its size is validated against the bounds; note
that no element-kind validation happens here. -/
def object_property_init (w : World) (minC : Nat) (maxC : Option Nat)
    (vals : List OElem) : Except VErr (List OElem) :=
  let rng := pySet w vals
  if rng.length < minC then .error .cardinalityError
  else
    match maxC with
    | some m => if m < rng.length then .error .cardinalityError else .ok rng
    | none => .ok rng

/-- Constructing a `DataProperty` whose `range` is annotated with
`as_range_of_data_property(t)` (lines 59-62): the bounds are fixed at
`Len(0, 1)`; again no element-kind validation happens here. -/
def data_property_init (vals : List Lit) : Except VErr (List Lit) :=
  let rng := pySetL vals
  if 1 < rng.length then .error .cardinalityError else .ok rng

/-- `BaseOntology.__hash__` (lines 407-409): the hash of `instance_iri`
(modelled injectively by the IRI itself). -/
def base_ontology_hash (s : InstState) : Iri :=
  s.instance_iri

/-- `BaseOntology.__eq__` (lines 404-405): equality is hash equality. -/
def base_ontology_eq (s t : InstState) : Bool :=
  base_ontology_hash s = base_ontology_hash t

/-- Union an accumulated pair of graphs onto a diff result (the algebra of
the write-only graph accumulators). -/
def withG (g1 g2 : Graph) : DiffM → DiffM
  | .ok (w, r, a) => .ok (w, g1 ∪ r, g2 ∪ a)
  | .error e => .error e

/-- The two graphs of a successful diff result. -/
def diffGraphs : DiffM → Option (Graph × Graph)
  | .ok (_, r, a) => some (r, a)
  | .error _ => none

/-- The world of a successful diff result (fallback otherwise). -/
def resultWorld (fallback : World) : DiffM → World
  | .ok (w, _, _) => w
  | .error _ => fallback

/-- Did the diff run terminate without an exception? -/
def isOkDiff : DiffM → Bool
  | .ok _ => true
  | .error _ => false

/-- The set of identifiers a range denotes (live references resolved to
their IRIs), the comparison domain of the diff. -/
def rangeIriSet (w : World) (l : List OElem) : Finset Iri :=
  (l.map (elemIri w)).toFinset

/-- The edges the spec assigns to `toAddSet = current − cached` for one
reference property field. -/
def op_added_edges (w : World) (subject : Iri) (self cache : OPState) : Graph :=
  (rangeIriSet w self.range \ rangeIriSet w cache.range).image
    (fun i => ⟨subject, self.predicate_iri, .iri i⟩)

/-- The edges the spec assigns to `toRemoveSet = cached − current` for one
reference property field. -/
def op_removed_edges (w : World) (subject : Iri) (self cache : OPState) : Graph :=
  (rangeIriSet w cache.range \ rangeIriSet w self.range).image
    (fun i => ⟨subject, self.predicate_iri, .iri i⟩)

/-- Resolve a range element to the live instance the diff recurses into: a
reference is its own object, a bare identifier goes through the registry
(skipped if not resident), unsupported values resolve to nothing. -/
def resolveLive (w : World) : OElem → Option Addr
  | .ref a => some a
  | .iriStr i => w.reg i
  | .bad _ => none

/-- The instances one reference-property diff recurses into, in loop
order: added set, then removed set, then the intersection. -/
def recursionTargets (w : World) (self cache : OPState) : List Addr :=
  (rangeDiff w self.range cache.range ++ rangeDiff w cache.range self.range
    ++ rangeInter w self.range cache.range).filterMap (resolveLive w)

/-- Sequentially recurse into a list of instances, threading world and
graphs. -/
def fold_recurse (recurse : World → Addr → Graph → Graph → DiffM) :
    List Addr → World → Graph → Graph → DiffM
  | [], w, gRm, gAdd => .ok (w, gRm, gAdd)
  | a :: rest, w, gRm, gAdd =>
    match recurse w a gRm gAdd with
    | .ok (w', gRm', gAdd') => fold_recurse recurse rest w' gRm' gAdd'
    | .error e => .error e

/-- Spec model of one reference-property diff step (spec section 4.5,
written from the spec's words, to be compared with the source embedding
`op_collect_range_diff_to_graph`): emit the added and removed edge sets
into the two graphs, then, exactly when `abs(depthBudget) > 0`, invoke the
recursion on every resolvable element of the added set, the removed set
and the intersection, with the decremented budget, accumulating into the
same graphs. -/
def op_collect_range_diff_spec (recurse : Int → World → Addr → Graph → Graph → DiffM)
    (w : World) (subject : Iri) (self cache : OPState)
    (gRm gAdd : Graph) (d : Int) : DiffM :=
  let gRm' := gRm ∪ op_removed_edges w subject self cache
  let gAdd' := gAdd ∪ op_added_edges w subject self cache
  if flag_collect d then
    fold_recurse (recurse (next_recursive_depth d)) (recursionTargets w self cache) w gRm' gAdd'
  else .ok (w, gRm', gAdd')

/-- Is the element of an unsupported type? -/
def isBadB : OElem → Bool
  | .bad _ => true
  | _ => false

/-- No element of the range is of an unsupported type. -/
def noBadB (l : List OElem) : Bool :=
  l.all (fun o => !isBadB o)

/-- A field is supported when neither its range nor its cached range holds
an unsupported element. -/
def fieldSupportedB : FieldSt → Bool
  | .obj _ rng cache => noBadB rng && noBadB (cache.getD [])
  | .dat _ _ _ => true

/-- A field is clean when its cached range equals its current range, with
instance references reduced to identifiers for the comparison (and no
unsupported elements around). -/
def cleanField (w : World) : FieldSt → Bool
  | .obj _ rng cache =>
    let c := cache.getD []
    noBadB rng && noBadB c
      && rng.all (fun o => c.any (fun y => elemKey w y = elemKey w o))
      && c.all (fun o => rng.any (fun y => elemKey w y = elemKey w o))
  | .dat _ rng cache =>
    let c := cache.getD []
    rng.all (fun x => decide (x ∈ c)) && c.all (fun x => decide (x ∈ rng))

/-- An instance whose cache snapshot equals its current property state:
every field clean, the cached `rdf_type` equal to the (nonempty) current
one, and the cached comment equal to the current comment. -/
def cleanInst (w : World) (st : InstState) : Bool :=
  st.fields.all (cleanField w) && (st.cache_rdf_type == some st.rdf_type)
    && (st.rdf_type != "") && (st.cache_rdfs_comment == st.rdfs_comment)

/-- A diff run only flips `_exist_in_kg` flags: everything else of every
instance, the allocator and the registry are untouched. -/
def WorldFrame (w w' : World) : Prop :=
  w'.next = w.next ∧ w'.reg = w.reg ∧
    ∀ b, w'.heap b = { w.heap b with exist_in_kg := (w'.heap b).exist_in_kg }

/-- The live (non-cache, non-flag) part of an instance, the part a pull
never rewrites for an already-resident object. -/
def fieldRangeSig : FieldSt → FieldSt
  | .obj p r _ => .obj p r none
  | .dat p r _ => .dat p r none

/-- Signature of the live state of an instance: identifier, type, comment
and every declared range — everything except the cache and the flag. -/
def instSig (st : InstState) : InstState :=
  { st with
    exist_in_kg := false
    cache_rdf_type := none
    cache_rdfs_comment := none
    fields := st.fields.map fieldRangeSig }

/-- The cache part of a field. -/
def fieldCacheSig : FieldSt → Option (List OElem) ⊕ Option (List Lit)
  | .obj _ _ c => .inl c
  | .dat _ _ c => .inr c

/-- The `_latest_cache` part of an instance. -/
def cacheSig (st : InstState) : Option Iri × Option String × List (Option (List OElem) ⊕ Option (List Lit)) :=
  (st.cache_rdf_type, st.cache_rdfs_comment, st.fields.map fieldCacheSig)

/-- The instance's cache snapshot is exactly what snapshotting its
now-current property state would produce (references reduced to bare
identifiers). -/
def CacheGood (w : World) (a : Addr) : Prop :=
  cacheSig (w.heap a) = cacheSig ((refresh_cache w a).heap a)

/-- Every live reference of the list points below the allocation bound. -/
def refsBoundB (n : Nat) (l : List OElem) : Bool :=
  l.all (fun o =>
    match o with
    | .ref a => a < n
    | _ => true)

/-- Every reference of the field's range is allocated. -/
def fieldRefsBoundB (n : Nat) : FieldSt → Bool
  | .obj _ rng _ => refsBoundB n rng
  | .dat _ _ _ => true

/-- Well-formed world: the registry and all reachable references point to
allocated slots. -/
def WFWorld (w : World) : Prop :=
  (∀ i a, w.reg i = some a → a < w.next) ∧
    (∀ b, b < w.next → (w.heap b).fields.all (fieldRefsBoundB w.next) = true)

/-- Did the pull terminate without a transport failure? -/
def isOkPull : PullRes → Bool
  | .ok _ => true
  | _ => false

/-- The per-field identifier list a found-instance reconciliation pull
receives: the identifiers populated in memory minus the freshly fetched
ones (lines 244-250). -/
def reconcile_pull_iris (w : World) (a : Addr) (pred : Iri) (props : PropsMap) : List Iri :=
  (pySetS (get_object_property_range_iris w (w.heap a) pred)).filter
    (fun i => i ∉ (props.getObj pred).getD [])

/-- An update standing for a Python assignment to a data property's range
(`validate_assignment` re-runs the set normalization). -/
def set_data_range (w : World) (a : Addr) (pred : Iri) (vals : List Lit) : World :=
  w.updateInst a (fun st =>
    { st with
      fields := st.fields.map (fun f =>
        match f with
        | .dat p _ c => if p = pred then .dat p (pySetL vals) c else f
        | x => x) })

/-- A blank instance state (unallocated heap slots hold it). -/
def emptyInst : InstState :=
  { instance_iri := ""
    rdf_type := ""
    rdfs_comment := none
    cache_rdf_type := none
    cache_rdfs_comment := none
    fields := []
    exist_in_kg := false }

/-- Example predicate for the reference-property scenarios. -/
def predP : Iri := "https://example.org/refProp"

/-- Example predicate for the data-property scenarios. -/
def predQ : Iri := "https://example.org/hasSize"

/-- Scenario for C1: one instance whose reference property has cached
range `{A, B}` and current range `{B, C}`. -/
def instC1 : InstState :=
  { instance_iri := "urn:x"
    rdf_type := "https://example.org/TX"
    rdfs_comment := none
    cache_rdf_type := some "https://example.org/TX"
    cache_rdfs_comment := none
    fields := [.obj predP [.iriStr "urn:B", .iriStr "urn:C"] (some [.iriStr "urn:A", .iriStr "urn:B"])]
    exist_in_kg := true }

/-- World of the C1 scenario. -/
def wC1 : World :=
  { heap := fun _ => instC1
    next := 1
    reg := fun _ => none }

/-- Scenario for C2's counterexample: instance X (address 0) is clean and
references Y; instance Y (address 1) has an un-cached data value. -/
def instX2 : InstState :=
  { instance_iri := "urn:X"
    rdf_type := "https://example.org/TX"
    rdfs_comment := none
    cache_rdf_type := some "https://example.org/TX"
    cache_rdfs_comment := none
    fields := [.obj predP [.ref 1] (some [.iriStr "urn:Y"])]
    exist_in_kg := true }

/-- The dirty neighbor of the C2 counterexample. -/
def instY2 : InstState :=
  { instance_iri := "urn:Y"
    rdf_type := "https://example.org/TY"
    rdfs_comment := none
    cache_rdf_type := none
    cache_rdfs_comment := none
    fields := [.dat predQ [.lInt 5] none]
    exist_in_kg := false }

/-- World of the C2 counterexample. -/
def wC2 : World :=
  { heap := fun a => if a = 0 then instX2 else instY2
    next := 2
    reg := fun i => if i = "urn:X" then some 0 else if i = "urn:Y" then some 1 else none }

/-- An everywhere-clean world (every heap slot holds the same clean
instance, registered under its identifier): witness world for the amended
C2. -/
def instClean : InstState :=
  { instance_iri := "urn:c"
    rdf_type := "https://example.org/Tc"
    rdfs_comment := none
    cache_rdf_type := some "https://example.org/Tc"
    cache_rdfs_comment := none
    fields := [.obj predP [.iriStr "urn:c"] (some [.iriStr "urn:c"])]
    exist_in_kg := true }

/-- World of the amended-C2 witness. -/
def wClean : World :=
  { heap := fun _ => instClean
    next := 1
    reg := fun i => if i = "urn:c" then some 0 else none }

/-- Scenario for C5: a freshly constructed instance with data property
range `{5}` and an empty cache, registered as `urn:1`. -/
def instC5 : InstState :=
  { instance_iri := "urn:1"
    rdf_type := "https://example.org/Widget"
    rdfs_comment := none
    cache_rdf_type := none
    cache_rdfs_comment := none
    fields := [.dat predQ [.lInt 5] none]
    exist_in_kg := false }

/-- World of the C5 scenario. -/
def wC5 : World :=
  { heap := fun _ => instC5
    next := 1
    reg := fun i => if i = "urn:1" then some 0 else none }

/-- Schema environment of the C7 scenario: class 0 has one reference
property targeting class 1. -/
def envC7 : SchemaEnv := fun sid =>
  if sid = 0 then ⟨"https://example.org/T0", [.objF "https://example.org/p" 1]⟩
  else ⟨"https://example.org/T1", []⟩

/-- Transport of the C7 scenario: the outer batch succeeds (X2 pointing at
Y), the nested fetch of Y fails. -/
def clientC7 : Client :=
  ⟨fun l =>
    if l = ["urn:X1", "urn:X2"] then
      some [("urn:X1", ⟨[], []⟩), ("urn:X2", ⟨[("https://example.org/p", ["urn:Y"])], []⟩)]
    else none⟩

/-- An empty world: nothing allocated, nothing registered. -/
def wEmptyW : World := ⟨fun _ => emptyInst, 0, fun _ => none⟩

/-- Schema environment of the C6 scenario: a single class with one
reference property. -/
def envC6 : SchemaEnv := fun _ => ⟨"https://example.org/TA", [.objF predP 0]⟩

/-- The already-resident instance of the C6 scenario: references `urn:B`
in memory, no cache yet. -/
def instA6 : InstState :=
  { instance_iri := "urn:A"
    rdf_type := "https://example.org/TA"
    rdfs_comment := none
    cache_rdf_type := none
    cache_rdfs_comment := none
    fields := [.obj predP [.iriStr "urn:B"] none]
    exist_in_kg := false }

/-- World of the C6 scenario: `urn:A` resident at address 0. -/
def wC6 : World :=
  { heap := fun _ => instA6
    next := 1
    reg := fun i => if i = "urn:A" then some 0 else none }

/-- Transport of the C6 scenario: fetching A returns no edges (so the
in-memory `urn:B` reference is not among the freshly fetched ones),
fetching B returns an empty batch. -/
def clientC6 : Client :=
  ⟨fun l =>
    if l = ["urn:A"] then some [("urn:A", ⟨[], []⟩)]
    else if l = ["urn:B"] then some []
    else none⟩

/-- The property of a recursion step that the two graphs are write-only
accumulators: running from enlarged graphs equals running from empty ones
and unioning the results. -/
def HomRec (recurse : World → Addr → Graph → Graph → DiffM) : Prop :=
  ∀ w a g1 g2, recurse w a g1 g2 = withG g1 g2 (recurse w a ∅ ∅)

/-- Everything one pull step guarantees about the world it returns: the
allocator only grows, the live part of every pre-existing instance is
untouched, registry bindings persist, and a well-snapshotted pre-existing
instance (allocated references, cache equal to a fresh snapshot) keeps
that property. -/
def PullStepOK (w w' : World) : Prop :=
  w.next ≤ w'.next ∧
  (∀ b, b < w.next → instSig (w'.heap b) = instSig (w.heap b)) ∧
  (∀ i a, w.reg i = some a → w'.reg i = some a) ∧
  (∀ n a, n ≤ w.next → a < n → (w.heap a).fields.all (fieldRefsBoundB n) = true →
    CacheGood w a → CacheGood w' a)

/-! ## Lemmas and theorems -/

lemma set_new_keeps (r : Reg) (i j : Iri) (x b : Addr) (h : r i = some x) :
    set_new_ontology_object r j b i = some x := by
  unfold set_new_ontology_object
  split
  · rename_i hj
    by_cases hij : i = j
    · subst hij; rw [h] at hj; cases hj
    · simp only [if_neg hij]; exact h
  · exact h

lemma applyRegOps_keeps : ∀ (ops : List RegOp) (r : Reg) (i : Iri) (x : Addr),
    r i = some x → applyRegOps r ops i = some x := by
  intro ops
  induction ops with
  | nil => intro r i x h; exact h
  | cons op ops ih =>
    intro r i x h
    exact ih _ _ _ (set_new_keeps r i op.iri x op.addr h)

/-- C4: registry insertion is idempotent insert-if-absent — once an
identifier is bound to an instance, a later registration of a different
instance under it is a no-op, and every later lookup, across any further
sequence of registrations, still returns the first instance. -/
theorem registry_insert_if_absent (r : Reg) (i : Iri) (x y : Addr) (h : r i = none) :
    set_new_ontology_object (set_new_ontology_object r i x) i y
      = set_new_ontology_object r i x ∧
    get_ontology_object_from_lookup (set_new_ontology_object r i x) i = some x ∧
    ∀ ops : List RegOp,
      get_ontology_object_from_lookup (applyRegOps (set_new_ontology_object r i x) ops) i = some x := by
  have hx : set_new_ontology_object r i x i = some x := by
    unfold set_new_ontology_object
    rw [h]
    simp
  refine ⟨?_, hx, fun ops => applyRegOps_keeps ops _ i x hx⟩
  show (if set_new_ontology_object r i x i = none then _ else _) = _
  rw [hx]
  simp

/-- Witness for C4 at a concrete registry history. -/
theorem registry_insert_if_absent_witness :
    get_ontology_object_from_lookup
      (applyRegOps (set_new_ontology_object clear_ontology_object_lookup "urn:a" 0)
        [⟨"urn:a", 1⟩, ⟨"urn:b", 2⟩]) "urn:a" = some 0 :=
  (registry_insert_if_absent clear_ontology_object_lookup "urn:a" 0 1 rfl).2.2
    [⟨"urn:a", 1⟩, ⟨"urn:b", 2⟩]

/-- C8: range-size bounds are validated when the property is constructed
(the `Len` annotation on the range, re-run on every assignment): with
`max_cardinality = 1`, two distinct range values fail with the
cardinality error, one value succeeds — for reference properties with
declared bounds and for attribute properties (fixed `Len(0, 1)`) alike. -/
theorem cardinality_enforced_at_construction (w : World) (v1 v2 v : OElem)
    (l1 l2 l : Lit) (h : elemKey w v1 ≠ elemKey w v2) (hl : l1 ≠ l2) :
    object_property_init w 0 (some 1) [v1, v2] = .error .cardinalityError ∧
    object_property_init w 0 (some 1) [v] = .ok [v] ∧
    data_property_init [l1, l2] = .error .cardinalityError ∧
    data_property_init [l] = .ok [l] := by
  have hset : pySet w [v1, v2] = [v1, v2] := by
    simp [pySet, pyInsert, decide_eq_false h]
  have hone : pySet w [v] = [v] := by
    simp [pySet, pyInsert]
  refine ⟨?_, ?_, ?_, ?_⟩
  · simp [object_property_init, hset]
  · simp [object_property_init, hone]
  · simp [data_property_init, pySetL, hl]
  · simp [data_property_init, pySetL]

/-- Witness for C8 at concrete range values. -/
theorem cardinality_enforced_at_construction_witness :
    object_property_init wC1 0 (some 1) [.iriStr "urn:A", .iriStr "urn:B"]
      = .error .cardinalityError ∧
    data_property_init [.lInt 1] = .ok [.lInt 1] :=
  ⟨(cardinality_enforced_at_construction wC1 (.iriStr "urn:A") (.iriStr "urn:B")
      (.iriStr "urn:A") (.lInt 1) (.lInt 2) (.lInt 1) (by decide) (by decide)).1,
   (cardinality_enforced_at_construction wC1 (.iriStr "urn:A") (.iriStr "urn:B")
      (.iriStr "urn:A") (.lInt 1) (.lInt 2) (.lInt 1) (by decide) (by decide)).2.2.2⟩

/-- C10: a live instance and the bare identifier string equal to its
`instance_iri` are one and the same set element (the second insertion
collapses), and instance hash/equality are determined solely by
`instance_iri` — two instances with equal identifiers compare equal even
with different property values. -/
theorem identity_by_iri :
    (∀ (w : World) (a : Addr),
      pySet w [OElem.ref a, OElem.iriStr (w.heap a).instance_iri] = [OElem.ref a]) ∧
    (∀ s t : InstState, s.instance_iri = t.instance_iri →
      base_ontology_hash s = base_ontology_hash t ∧ base_ontology_eq s t = true) ∧
    (instX2.fields ≠ [] ∧ base_ontology_eq instX2 { instX2 with fields := [] } = true) := by
  refine ⟨fun w a => ?_, fun s t h => ?_, by decide, by decide⟩
  · simp [pySet, pyInsert, elemKey]
  · constructor
    · simpa [base_ontology_hash] using h
    · simp [base_ontology_eq, base_ontology_hash, h]

/-- Witness for C10 at a concrete world and pair of instances. -/
theorem identity_by_iri_witness :
    pySet wC1 [OElem.ref 0, OElem.iriStr (wC1.heap 0).instance_iri] = [OElem.ref 0] ∧
    base_ontology_eq instX2 { instX2 with fields := [] } = true :=
  ⟨identity_by_iri.1 wC1 0,
   (identity_by_iri.2.1 instX2 { instX2 with fields := [] } rfl).2⟩

lemma add_property_err (subject pred : Iri) (x : Lit) (g : Graph) (e : DErr)
    (h : add_property_to_graph subject pred x g = .error e) : e = .typeError := by
  unfold add_property_to_graph at h
  cases hx : litNode x <;> rw [hx] at h
  · cases h; rfl
  · cases h

lemma dp_diff_loop_err (subject pred : Iri) :
    ∀ (l : List Lit) (g : Graph) (e : DErr),
      dp_diff_loop subject pred l g = .error e → e = .typeError := by
  intro l
  induction l with
  | nil => intro g e h; cases h
  | cons x xs ih =>
    intro g e h
    unfold dp_diff_loop at h
    cases hx : add_property_to_graph subject pred x g <;> rw [hx] at h
    · cases h; exact add_property_err subject pred x g _ hx
    · exact ih _ _ h

lemma dp_diff_loop_bad (subject pred : Iri) :
    ∀ (l : List Lit) (g : Graph) (tag : Nat), .lBad tag ∈ l →
      dp_diff_loop subject pred l g = .error .typeError := by
  intro l
  induction l with
  | nil => intro g tag h; cases h
  | cons x xs ih =>
    intro g tag h
    unfold dp_diff_loop
    cases hx : add_property_to_graph subject pred x g
    · rw [add_property_err subject pred x g _ hx]
    · rcases List.mem_cons.mp h with h | h
      · subst h
        simp [add_property_to_graph, litNode] at hx
      · exact ih _ tag h

lemma op_add_loop_bad (recurse : World → Addr → Graph → Graph → DiffM)
    (subject pred : Iri) :
    ∀ (l : List OElem) (w : World) (g1 g2 : Graph) (tag : Nat), .bad tag ∈ l →
      op_diff_add_loop recurse subject pred false l w g1 g2 = .error .typeError := by
  intro l
  induction l with
  | nil => intro w g1 g2 tag h; cases h
  | cons o os ih =>
    intro w g1 g2 tag h
    match o with
    | .bad t => simp [op_diff_add_loop]
    | .ref a =>
      rcases List.mem_cons.mp h with h | h
      · cases h
      · simpa [op_diff_add_loop] using ih w g1 _ tag h
    | .iriStr i =>
      rcases List.mem_cons.mp h with h | h
      · cases h
      · simpa [op_diff_add_loop] using ih w g1 _ tag h

/-- C9 (amended): an unsupported value in a property's range is never
silently coerced, but the failure surfaces when the property is
serialized to triples during diff collection (a `TypeError`), not at
assignment time: a data property raises as soon as an unsupported literal
is part of the emitted difference, an object property raises on an
unsupported element of the added difference. -/
theorem unsupported_kind_fails_at_serialization :
    (∀ (subject : Iri) (self cache : DPState) (g1 g2 : Graph) (tag : Nat),
      .lBad tag ∈ self.range → .lBad tag ∉ cache.range →
      dp_collect_range_diff_to_graph subject self cache g1 g2 = .error .typeError) ∧
    (∀ (recurse : Int → World → Addr → Graph → Graph → DiffM) (w : World)
      (subject : Iri) (self cache : OPState) (g1 g2 : Graph) (tag : Nat),
      .bad tag ∈ self.range →
      (∀ y ∈ cache.range, elemKey w y ≠ elemKey w (.bad tag)) →
      op_collect_range_diff_to_graph recurse w subject self cache g1 g2 0 = .error .typeError) := by
  constructor
  · intro subject self cache g1 g2 tag hmem hnot
    unfold dp_collect_range_diff_to_graph
    cases hr : dp_diff_loop subject self.predicate_iri
        (cache.range.filter (fun x => x ∉ self.range)) g1 with
    | error e =>
      have he := dp_diff_loop_err subject self.predicate_iri _ g1 _ hr
      subst he
      rfl
    | ok g =>
      have hm : Lit.lBad tag ∈ self.range.filter (fun x => x ∉ cache.range) := by
        simp [List.mem_filter, hmem, hnot]
      rw [dp_diff_loop_bad subject self.predicate_iri _ g2 tag hm]
  · intro recurse w subject self cache g1 g2 tag hmem hnot
    unfold op_collect_range_diff_to_graph
    have hflag : flag_collect 0 = false := by decide
    have hm : OElem.bad tag ∈ rangeDiff w self.range cache.range := by
      simp only [rangeDiff, List.mem_filter, hmem, true_and]
      simp only [List.any_eq_true, decide_eq_true_eq]
      push_neg
      intro y hy
      exact hnot y hy
    rw [hflag, op_add_loop_bad (recurse (next_recursive_depth 0)) subject self.predicate_iri _ w g1 g2 tag hm]

/-- Witness for C9 (amended) at concrete ranges. -/
theorem unsupported_kind_fails_at_serialization_witness :
    dp_collect_range_diff_to_graph "urn:x" ⟨predQ, [.lBad 0]⟩ ⟨predQ, []⟩ ∅ ∅
      = .error .typeError ∧
    op_collect_range_diff_to_graph (collect_diff_to_graph 1) wC1 "urn:x"
      ⟨predP, [.bad 0]⟩ ⟨predP, []⟩ ∅ ∅ 0 = .error .typeError :=
  ⟨unsupported_kind_fails_at_serialization.1 "urn:x" ⟨predQ, [.lBad 0]⟩ ⟨predQ, []⟩ ∅ ∅ 0
    (by decide) (by decide),
   unsupported_kind_fails_at_serialization.2 (collect_diff_to_graph 1) wC1 "urn:x"
    ⟨predP, [.bad 0]⟩ ⟨predP, []⟩ ∅ ∅ 0 (by decide) (by decide)⟩

/-- Counterexample for C9 as stated: constructing a property whose range
holds an unsupported value succeeds — no error is raised at assignment
time (the `range: Set` field of `BaseProperty` carries no element-kind
validation); the error only appears at serialization. -/
theorem unsupported_kind_counterexample :
    data_property_init [.lBad 0] = .ok [.lBad 0] ∧
    object_property_init wC1 0 none [.bad 0] = .ok [.bad 0] ∧
    dp_collect_range_diff_to_graph "urn:1" ⟨predQ, [.lBad 0]⟩ ⟨predQ, []⟩ ∅ ∅
      = .error .typeError := by
  decide

/-- Counterexample for C2 as stated: the instance at address 0 of `wC2` is
clean (its cache snapshot equals its current property state exactly), yet
at depth budget 1 `collect_diff_to_graph` adds triples — the recursion
descends through the unchanged reference into a dirty neighbor. -/
theorem diff_clean_counterexample :
    cleanInst wC2 (wC2.heap 0) = true ∧
    diffGraphs (collect_diff_to_graph 3 1 wC2 0 ∅ ∅)
      = some (∅, {⟨"urn:Y", predQ, .lit (.lInt 5)⟩,
          ⟨"urn:Y", rdfTypeIri, .iri "https://example.org/TY"⟩}) ∧
    ({⟨"urn:Y", predQ, .lit (.lInt 5)⟩,
        ⟨"urn:Y", rdfTypeIri, .iri "https://example.org/TY"⟩} : Graph) ≠ ∅ := by
  decide

/-- Counterexample for C5 as stated: pushing the freshly built `urn:1`
(data range `{5}`, empty cache) emits the type and value triples; after
mutating the range to `{7}`, the second diff against the un-refreshed
cache yields `toAdd = {(urn:1, hasSize, 7)}` and `toRemove = ∅` — not the
`toRemove = {(urn:1, hasSize, 5)}` the claim states, because the cache was
never populated by the push. -/
theorem push_stale_cache_counterexample :
    diffGraphs (push_to_kg 2 wC5 0 0)
      = some (∅, {⟨"urn:1", predQ, .lit (.lInt 5)⟩,
          ⟨"urn:1", rdfTypeIri, .iri "https://example.org/Widget"⟩}) ∧
    diffGraphs (collect_diff_to_graph 2 0
        (set_data_range (resultWorld wC5 (push_to_kg 2 wC5 0 0)) 0 predQ [.lInt 7]) 0 ∅ ∅)
      = some (∅, {⟨"urn:1", predQ, .lit (.lInt 7)⟩}) := by
  decide

/-- Counterexample for C7 as stated: the batch `[X1, X2]` is fetched in
one call, X1 is materialized and registered, then X2's nested recursive
pull of `urn:Y` hits a transport failure; the error propagates but X1's
registration survives — the registry is not left as it was. -/
theorem pull_nested_failure_counterexample :
    (pull_from_kg 3 envC7 0 clientC7 ["urn:X1", "urn:X2"] 1 wEmptyW).2 = .storeErr ∧
    (pull_from_kg 3 envC7 0 clientC7 ["urn:X1", "urn:X2"] 1 wEmptyW).1.reg "urn:X1" = some 0 ∧
    wEmptyW.reg "urn:X1" = none := by
  decide

/-- C7 (amended): a transport failure of the batch fetch itself propagates
as the store-query error with the world — in particular the Identity
Registry — exactly as it was before the call; a failure inside a *nested*
recursive pull also propagates, but batch elements already processed stay
registered. -/
theorem pull_outer_failure_no_mutation (fuel : Nat) (env : SchemaEnv) (sid : Nat)
    (client : Client) (iris : List Iri) (d : Int) (w : World)
    (h : client.fetch (pySetS iris) = none) :
    pull_from_kg (fuel + 1) env sid client iris d w = (w, .storeErr) := by
  unfold pull_from_kg
  rw [h]

/-- Witness for C7 (amended) at a concrete failing fetch. -/
theorem pull_outer_failure_no_mutation_witness :
    pull_from_kg 1 envC7 0 clientC7 ["urn:Y"] 0 wEmptyW = (wEmptyW, .storeErr) :=
  pull_outer_failure_no_mutation 0 envC7 0 clientC7 ["urn:Y"] 0 wEmptyW (by decide)

lemma elemKey_of_not_bad (w : World) (o : OElem) (h : isBadB o = false) :
    elemKey w o = .id (elemIri w o) := by
  cases o with
  | ref a => rfl
  | iriStr i => rfl
  | bad t => cases h

lemma noBadB_mem {l : List OElem} (h : noBadB l = true) {o : OElem} (ho : o ∈ l) :
    isBadB o = false := by
  have := List.all_eq_true.mp h o ho
  simpa using this

lemma noBadB_filter (p : OElem → Bool) {l : List OElem} (h : noBadB l = true) :
    noBadB (l.filter p) = true := by
  refine List.all_eq_true.mpr fun o ho => ?_
  exact List.all_eq_true.mp h o (List.mem_filter.mp ho).1

lemma op_add_loop_pure (recurse : World → Addr → Graph → Graph → DiffM)
    (subject pred : Iri) :
    ∀ (l : List OElem) (w : World) (g1 g2 : Graph), noBadB l = true →
      op_diff_add_loop recurse subject pred false l w g1 g2
        = .ok (w, g1, g2 ∪ (l.map (fun o => (⟨subject, pred, .iri (elemIri w o)⟩ : Triple))).toFinset) := by
  intro l
  induction l with
  | nil => intro w g1 g2 _; simp [op_diff_add_loop]
  | cons o os ih =>
    intro w g1 g2 h
    have ho : isBadB o = false := noBadB_mem h (List.mem_cons_self o os)
    have hos : noBadB os = true :=
      List.all_eq_true.mpr fun x hx => List.all_eq_true.mp h x (List.mem_cons_of_mem o hx)
    cases o with
    | ref a =>
      rw [op_diff_add_loop]
      simp only [if_neg (by simp : ¬ (false = true))]
      rw [ih w g1 _ hos]
      simp [elemIri, List.toFinset_cons, Finset.union_insert, Finset.insert_union]
    | iriStr i =>
      rw [op_diff_add_loop]
      simp only [if_neg (by simp : ¬ (false = true))]
      rw [ih w g1 _ hos]
      simp [elemIri, List.toFinset_cons, Finset.union_insert, Finset.insert_union]
    | bad t => cases ho

lemma op_remove_loop_pure (recurse : World → Addr → Graph → Graph → DiffM)
    (subject pred : Iri) :
    ∀ (l : List OElem) (w : World) (g1 g2 : Graph), noBadB l = true →
      op_diff_remove_loop recurse subject pred false l w g1 g2
        = .ok (w, g1 ∪ (l.map (fun o => (⟨subject, pred, .iri (elemIri w o)⟩ : Triple))).toFinset, g2) := by
  intro l
  induction l with
  | nil => intro w g1 g2 _; simp [op_diff_remove_loop]
  | cons o os ih =>
    intro w g1 g2 h
    have ho : isBadB o = false := noBadB_mem h (List.mem_cons_self o os)
    have hos : noBadB os = true :=
      List.all_eq_true.mpr fun x hx => List.all_eq_true.mp h x (List.mem_cons_of_mem o hx)
    cases o with
    | ref a =>
      rw [op_diff_remove_loop]
      simp only [if_neg (by simp : ¬ (false = true))]
      rw [ih w _ g2 hos]
      simp [elemIri, List.toFinset_cons, Finset.union_insert, Finset.insert_union]
    | iriStr i =>
      rw [op_diff_remove_loop]
      simp only [if_neg (by simp : ¬ (false = true))]
      rw [ih w _ g2 hos]
      simp [elemIri, List.toFinset_cons, Finset.union_insert, Finset.insert_union]
    | bad t => cases ho

lemma mem_rangeIriSet {w : World} {l : List OElem} {i : Iri} :
    i ∈ rangeIriSet w l ↔ ∃ o ∈ l, elemIri w o = i := by
  simp [rangeIriSet]

lemma diff_edges_eq (w : World) (subject pred : Iri) (xs ys : List OElem)
    (hx : noBadB xs = true) (hy : noBadB ys = true) :
    ((rangeDiff w xs ys).map (fun o => (⟨subject, pred, .iri (elemIri w o)⟩ : Triple))).toFinset
      = (rangeIriSet w xs \ rangeIriSet w ys).image
          (fun i => (⟨subject, pred, .iri i⟩ : Triple)) := by
  ext t
  simp only [List.mem_toFinset, List.mem_map, Finset.mem_image, Finset.mem_sdiff,
    rangeDiff, List.mem_filter, decide_eq_true_eq, List.any_eq_true, not_exists]
  constructor
  · rintro ⟨o, ⟨hmem, hnot⟩, rfl⟩
    refine ⟨elemIri w o, ⟨mem_rangeIriSet.mpr ⟨o, hmem, rfl⟩, ?_⟩, rfl⟩
    intro hin
    rcases mem_rangeIriSet.mp hin with ⟨y, hy', hiy⟩
    refine hnot y ⟨hy', ?_⟩
    rw [elemKey_of_not_bad w y (noBadB_mem hy hy'),
      elemKey_of_not_bad w o (noBadB_mem hx hmem), hiy]
  · rintro ⟨i, ⟨hin, hnotin⟩, rfl⟩
    rcases mem_rangeIriSet.mp hin with ⟨o, hmem, rfl⟩
    refine ⟨o, ⟨hmem, ?_⟩, rfl⟩
    rintro y ⟨hy', hk⟩
    rw [elemKey_of_not_bad w y (noBadB_mem hy hy'),
      elemKey_of_not_bad w o (noBadB_mem hx hmem)] at hk
    exact hnotin (mem_rangeIriSet.mpr ⟨y, hy', EKey.id.inj hk⟩)

/-- C1: for every instance and declared reference-property field, the diff
emits exactly the edges `(subject, predicate, o)` for `o` in cached-range
minus current-range into the remove graph and for `o` in current-range
minus cached-range into the add graph, ranges compared by identifier
(shown here with recursion off, depth budget 0, where these are the only
emitted edges); in particular, with cached range `{A, B}` and current
range `{B, C}`, the A-edge is removed, the C-edge is added, and no emitted
edge has object `B`. -/
theorem op_range_diff_exact :
    (∀ (recurse : Int → World → Addr → Graph → Graph → DiffM) (w : World)
      (subject : Iri) (self cache : OPState) (g1 g2 : Graph),
      noBadB self.range = true → noBadB cache.range = true →
      op_collect_range_diff_to_graph recurse w subject self cache g1 g2 0
        = .ok (w, g1 ∪ op_removed_edges w subject self cache,
               g2 ∪ op_added_edges w subject self cache)) ∧
    diffGraphs (collect_diff_to_graph 2 0 wC1 0 ∅ ∅)
      = some ({⟨"urn:x", predP, .iri "urn:A"⟩}, {⟨"urn:x", predP, .iri "urn:C"⟩}) ∧
    (⟨"urn:x", predP, .iri "urn:B"⟩ : Triple) ∉ ({⟨"urn:x", predP, .iri "urn:A"⟩} : Graph) ∧
    (⟨"urn:x", predP, .iri "urn:B"⟩ : Triple) ∉ ({⟨"urn:x", predP, .iri "urn:C"⟩} : Graph) := by
  refine ⟨?_, by decide, by decide, by decide⟩
  intro recurse w subject self cache g1 g2 hs hc
  have hA : noBadB (rangeDiff w self.range cache.range) = true := by
    unfold rangeDiff; exact noBadB_filter _ hs
  have hR : noBadB (rangeDiff w cache.range self.range) = true := by
    unfold rangeDiff; exact noBadB_filter _ hc
  have hflag : flag_collect 0 = false := by decide
  unfold op_collect_range_diff_to_graph
  rw [hflag]
  rw [op_add_loop_pure (recurse (next_recursive_depth 0)) subject self.predicate_iri _ w g1 g2 hA]
  simp only []
  rw [op_remove_loop_pure (recurse (next_recursive_depth 0)) subject self.predicate_iri _ w g1 _ hR]
  simp only []
  rw [diff_edges_eq w subject self.predicate_iri _ _ hs hc,
    diff_edges_eq w subject self.predicate_iri _ _ hc hs]
  rw [op_added_edges, op_removed_edges]
  simp

/-- Witness for C1 at a concrete field state. -/
theorem op_range_diff_exact_witness :
    op_collect_range_diff_to_graph (collect_diff_to_graph 1) wC1 "urn:x"
      ⟨predP, [.iriStr "urn:B", .iriStr "urn:C"]⟩
      ⟨predP, [.iriStr "urn:A", .iriStr "urn:B"]⟩ ∅ ∅ 0
      = .ok (wC1, ∅ ∪ op_removed_edges wC1 "urn:x"
          ⟨predP, [.iriStr "urn:B", .iriStr "urn:C"]⟩
          ⟨predP, [.iriStr "urn:A", .iriStr "urn:B"]⟩,
        ∅ ∪ op_added_edges wC1 "urn:x"
          ⟨predP, [.iriStr "urn:B", .iriStr "urn:C"]⟩
          ⟨predP, [.iriStr "urn:A", .iriStr "urn:B"]⟩) :=
  op_range_diff_exact.1 (collect_diff_to_graph 1) wC1 "urn:x"
    ⟨predP, [.iriStr "urn:B", .iriStr "urn:C"]⟩
    ⟨predP, [.iriStr "urn:A", .iriStr "urn:B"]⟩ ∅ ∅ (by decide) (by decide)

lemma frame_refl (w : World) : WorldFrame w w :=
  ⟨rfl, rfl, fun _ => rfl⟩

lemma frame_trans {w w' w'' : World} (h1 : WorldFrame w w') (h2 : WorldFrame w' w'') :
    WorldFrame w w'' := by
  refine ⟨h2.1.trans h1.1, h2.2.1.trans h1.2.1, fun b => ?_⟩
  rw [h2.2.2 b, h1.2.2 b]

lemma frame_type_world_step (w : World) (a : Addr) : WorldFrame w (type_world_step w a) := by
  unfold type_world_step
  split
  · refine ⟨rfl, rfl, fun b => ?_⟩
    simp only [World.updateInst]
    by_cases hb : b = a
    · subst hb; simp [Function.update]
    · simp [Function.update, hb]
  · exact frame_refl w

/-- The property of a recursion step that it only flips existence flags. -/
def FrameRec (recurse : World → Addr → Graph → Graph → DiffM) : Prop :=
  ∀ w a g1 g2 w' r ad, recurse w a g1 g2 = .ok (w', r, ad) → WorldFrame w w'

lemma op_add_loop_frame {recurse : World → Addr → Graph → Graph → DiffM}
    (h : FrameRec recurse) (subject pred : Iri) (flag : Bool) :
    ∀ (l : List OElem) (w : World) (g1 g2 : Graph) (w' : World) (r ad : Graph),
      op_diff_add_loop recurse subject pred flag l w g1 g2 = .ok (w', r, ad) →
      WorldFrame w w' := by
  intro l
  induction l with
  | nil => intro w g1 g2 w' r ad hok; cases hok; exact frame_refl w
  | cons o os ih =>
    intro w g1 g2 w' r ad hok
    cases o with
    | ref a =>
      rw [op_diff_add_loop] at hok
      by_cases hf : flag
      · rw [if_pos hf] at hok
        cases hr : recurse w a g1 (insert ⟨subject, pred, .iri (w.heap a).instance_iri⟩ g2) with
        | error e => rw [hr] at hok; cases hok
        | ok res =>
          rw [hr] at hok
          obtain ⟨w1, r1, a1⟩ := res
          exact frame_trans (h w a _ _ w1 r1 a1 hr) (ih w1 _ _ w' r ad hok)
      · rw [if_neg hf] at hok
        exact ih w g1 _ w' r ad hok
    | iriStr i =>
      rw [op_diff_add_loop] at hok
      by_cases hf : flag
      · rw [if_pos hf] at hok
        cases hreg : w.reg i with
        | some a =>
          simp only [hreg] at hok
          cases hr : recurse w a g1 (insert ⟨subject, pred, .iri i⟩ g2) with
          | error e => rw [hr] at hok; cases hok
          | ok res =>
            rw [hr] at hok
            obtain ⟨w1, r1, a1⟩ := res
            exact frame_trans (h w a _ _ w1 r1 a1 hr) (ih w1 _ _ w' r ad hok)
        | none =>
          simp only [hreg] at hok
          exact ih w g1 _ w' r ad hok
      · rw [if_neg hf] at hok
        exact ih w g1 _ w' r ad hok
    | bad t => rw [op_diff_add_loop] at hok; cases hok

lemma op_remove_loop_frame {recurse : World → Addr → Graph → Graph → DiffM}
    (h : FrameRec recurse) (subject pred : Iri) (flag : Bool) :
    ∀ (l : List OElem) (w : World) (g1 g2 : Graph) (w' : World) (r ad : Graph),
      op_diff_remove_loop recurse subject pred flag l w g1 g2 = .ok (w', r, ad) →
      WorldFrame w w' := by
  intro l
  induction l with
  | nil => intro w g1 g2 w' r ad hok; cases hok; exact frame_refl w
  | cons o os ih =>
    intro w g1 g2 w' r ad hok
    cases o with
    | ref a =>
      rw [op_diff_remove_loop] at hok
      by_cases hf : flag
      · rw [if_pos hf] at hok
        cases hr : recurse w a (insert ⟨subject, pred, .iri (w.heap a).instance_iri⟩ g1) g2 with
        | error e => rw [hr] at hok; cases hok
        | ok res =>
          rw [hr] at hok
          obtain ⟨w1, r1, a1⟩ := res
          exact frame_trans (h w a _ _ w1 r1 a1 hr) (ih w1 _ _ w' r ad hok)
      · rw [if_neg hf] at hok
        exact ih w _ g2 w' r ad hok
    | iriStr i =>
      rw [op_diff_remove_loop] at hok
      by_cases hf : flag
      · rw [if_pos hf] at hok
        cases hreg : w.reg i with
        | some a =>
          simp only [hreg] at hok
          cases hr : recurse w a (insert ⟨subject, pred, .iri i⟩ g1) g2 with
          | error e => rw [hr] at hok; cases hok
          | ok res =>
            rw [hr] at hok
            obtain ⟨w1, r1, a1⟩ := res
            exact frame_trans (h w a _ _ w1 r1 a1 hr) (ih w1 _ _ w' r ad hok)
        | none =>
          simp only [hreg] at hok
          exact ih w _ g2 w' r ad hok
      · rw [if_neg hf] at hok
        exact ih w _ g2 w' r ad hok
    | bad t => rw [op_diff_remove_loop] at hok; cases hok

lemma op_intersection_loop_frame {recurse : World → Addr → Graph → Graph → DiffM}
    (h : FrameRec recurse) :
    ∀ (l : List OElem) (w : World) (g1 g2 : Graph) (w' : World) (r ad : Graph),
      op_intersection_loop recurse l w g1 g2 = .ok (w', r, ad) →
      WorldFrame w w' := by
  intro l
  induction l with
  | nil => intro w g1 g2 w' r ad hok; cases hok; exact frame_refl w
  | cons o os ih =>
    intro w g1 g2 w' r ad hok
    cases o with
    | ref a =>
      rw [op_intersection_loop] at hok
      cases hr : recurse w a g1 g2 with
      | error e => rw [hr] at hok; cases hok
      | ok res =>
        rw [hr] at hok
        obtain ⟨w1, r1, a1⟩ := res
        exact frame_trans (h w a _ _ w1 r1 a1 hr) (ih w1 _ _ w' r ad hok)
    | iriStr i =>
      rw [op_intersection_loop] at hok
      cases hreg : w.reg i with
      | some a =>
        simp only [hreg] at hok
        cases hr : recurse w a g1 g2 with
        | error e => rw [hr] at hok; cases hok
        | ok res =>
          rw [hr] at hok
          obtain ⟨w1, r1, a1⟩ := res
          exact frame_trans (h w a _ _ w1 r1 a1 hr) (ih w1 _ _ w' r ad hok)
      | none =>
        simp only [hreg] at hok
        exact ih w g1 g2 w' r ad hok
    | bad t => rw [op_intersection_loop] at hok; cases hok

lemma op_collect_frame {recurse : Int → World → Addr → Graph → Graph → DiffM}
    (h : ∀ d, FrameRec (recurse d)) (w : World) (subject : Iri)
    (self cache : OPState) (g1 g2 : Graph) (d : Int) (w' : World) (r ad : Graph)
    (hok : op_collect_range_diff_to_graph recurse w subject self cache g1 g2 d = .ok (w', r, ad)) :
    WorldFrame w w' := by
  unfold op_collect_range_diff_to_graph at hok
  cases h1 : op_diff_add_loop (recurse (next_recursive_depth d)) subject self.predicate_iri
      (flag_collect d) (rangeDiff w self.range cache.range) w g1 g2 with
  | error e => rw [h1] at hok; cases hok
  | ok res1 =>
    obtain ⟨w1, r1, a1⟩ := res1
    simp only [h1] at hok
    have f1 := op_add_loop_frame (h _) subject self.predicate_iri _ _ w g1 g2 w1 r1 a1 h1
    cases h2 : op_diff_remove_loop (recurse (next_recursive_depth d)) subject self.predicate_iri
        (flag_collect d) (rangeDiff w cache.range self.range) w1 r1 a1 with
    | error e => simp only [h2] at hok; cases hok
    | ok res2 =>
      obtain ⟨w2, r2, a2⟩ := res2
      simp only [h2] at hok
      have f2 := op_remove_loop_frame (h _) subject self.predicate_iri _ _ w1 r1 a1 w2 r2 a2 h2
      by_cases hf : flag_collect d
      · rw [if_pos hf] at hok
        exact frame_trans (frame_trans f1 f2)
          (op_intersection_loop_frame (h _) _ w2 r2 a2 w' r ad hok)
      · rw [if_neg hf] at hok
        cases hok
        exact frame_trans f1 f2

lemma fields_loop_frame {recurse : Int → World → Addr → Graph → Graph → DiffM}
    (h : ∀ d, FrameRec (recurse d)) (subject : Iri) (d : Int) :
    ∀ (fs : List FieldSt) (w : World) (g1 g2 : Graph) (w' : World) (r ad : Graph),
      fields_diff_loop recurse subject d fs w g1 g2 = .ok (w', r, ad) →
      WorldFrame w w' := by
  intro fs
  induction fs with
  | nil => intro w g1 g2 w' r ad hok; cases hok; exact frame_refl w
  | cons f fs ih =>
    intro w g1 g2 w' r ad hok
    cases f with
    | obj pred rng cache =>
      rw [fields_diff_loop] at hok
      cases h1 : op_collect_range_diff_to_graph recurse w subject ⟨pred, rng⟩
          ⟨pred, cache.getD []⟩ g1 g2 d with
      | error e => rw [h1] at hok; cases hok
      | ok res =>
        rw [h1] at hok
        obtain ⟨w1, r1, a1⟩ := res
        exact frame_trans (op_collect_frame h w subject _ _ g1 g2 d w1 r1 a1 h1)
          (ih w1 r1 a1 w' r ad hok)
    | dat pred rng cache =>
      rw [fields_diff_loop] at hok
      cases h1 : dp_collect_range_diff_to_graph subject ⟨pred, rng⟩ ⟨pred, cache.getD []⟩ g1 g2 with
      | error e => rw [h1] at hok; cases hok
      | ok res =>
        rw [h1] at hok
        obtain ⟨r1, a1⟩ := res
        exact ih w r1 a1 w' r ad hok

lemma collect_diff_frame :
    ∀ (fuel : Nat) (d : Int), FrameRec (collect_diff_to_graph fuel d) := by
  intro fuel
  induction fuel with
  | zero => intro d w a g1 g2 w' r ad hok; cases hok
  | succ fuel ih =>
    intro d w a g1 g2 w' r ad hok
    rw [collect_diff_to_graph] at hok
    exact frame_trans (frame_type_world_step w a)
      (fields_loop_frame ih (w.heap a).instance_iri d (w.heap a).fields _ _ _ w' r ad hok)

lemma cacheSig_of_frame {w w' : World} (h : WorldFrame w w') (b : Addr) :
    cacheSig (w'.heap b) = cacheSig (w.heap b) := by
  rw [h.2.2 b]
  rfl

/-- C5 (amended): `push_to_kg` leaves every instance's `_latest_cache`
unchanged (a successful push only flips existence flags); consequently,
after a first push of the freshly built `urn:1` with data range `{5}`,
mutating the range to `{7}` and diffing against the un-refreshed — still
empty — cache yields exactly `toAdd = {(urn:1, hasSize, 7)}` and
`toRemove = ∅`: the stale 5-edge is never removed. -/
theorem push_keeps_cache_unchanged :
    (∀ (fuel : Nat) (d : Int) (w : World) (a : Addr),
      isOkDiff (push_to_kg fuel w a d) = true →
      ∀ b, cacheSig ((resultWorld w (push_to_kg fuel w a d)).heap b) = cacheSig (w.heap b)) ∧
    diffGraphs (collect_diff_to_graph 2 0
        (set_data_range (resultWorld wC5 (push_to_kg 2 wC5 0 0)) 0 predQ [.lInt 7]) 0 ∅ ∅)
      = some (∅, {⟨"urn:1", predQ, .lit (.lInt 7)⟩}) := by
  constructor
  · intro fuel d w a hok b
    unfold push_to_kg at hok ⊢
    cases hm : collect_diff_to_graph fuel d w a ∅ ∅ with
    | error e => simp [isOkDiff, hm] at hok
    | ok res =>
      obtain ⟨w', r, ad⟩ := res
      simp only [hm, resultWorld]
      exact cacheSig_of_frame (collect_diff_frame fuel d w a ∅ ∅ w' r ad hm) b
  · decide

/-- Witness for C5 (amended) at the concrete scenario. -/
theorem push_keeps_cache_unchanged_witness :
    cacheSig ((resultWorld wC5 (push_to_kg 2 wC5 0 0)).heap 0) = cacheSig (wC5.heap 0) :=
  push_keeps_cache_unchanged.1 2 0 wC5 0 (by decide) 0

lemma cleanInst_parts {w : World} {st : InstState} (h : cleanInst w st = true) :
    st.fields.all (cleanField w) = true ∧ st.cache_rdf_type = some st.rdf_type ∧
    st.rdf_type ≠ "" ∧ st.cache_rdfs_comment = st.rdfs_comment := by
  simp only [cleanInst, Bool.and_eq_true, beq_iff_eq, bne_iff_ne, ne_eq] at h
  exact ⟨h.1.1.1, h.1.1.2, h.1.2, h.2⟩

lemma clean_comment_remove {st : InstState} (h : st.cache_rdfs_comment = st.rdfs_comment)
    (g : Graph) : comment_remove_step st g = g := by
  simp [comment_remove_step, h]

lemma clean_comment_add {st : InstState} (h : st.cache_rdfs_comment = st.rdfs_comment)
    (g : Graph) : comment_add_step st g = g := by
  simp [comment_add_step, h]

lemma clean_type_flag {st : InstState} (h1 : st.cache_rdf_type = some st.rdf_type)
    (h2 : st.rdf_type ≠ "") : emit_type_flag st = false := by
  simp [emit_type_flag, truthyCachedType, h1, h2]

lemma clean_type_add {st : InstState} (h : emit_type_flag st = false) (g : Graph) :
    type_add_step st g = g := by
  simp [type_add_step, h]

lemma clean_type_world {w : World} {a : Addr} (h : emit_type_flag (w.heap a) = false) :
    type_world_step w a = w := by
  simp [type_world_step, h]

lemma rangeDiff_nil {w : World} {xs ys : List OElem}
    (h : xs.all (fun o => ys.any (fun y => elemKey w y = elemKey w o)) = true) :
    rangeDiff w xs ys = [] := by
  unfold rangeDiff
  refine List.filter_eq_nil.mpr fun o ho => ?_
  have := List.all_eq_true.mp h o ho
  simp only [decide_eq_true_eq, decide_not, Bool.not_eq_true', decide_eq_false_iff_not, not_not]
  simpa using this

lemma litFilter_nil {c rng : List Lit} (h : c.all (fun x => decide (x ∈ rng)) = true) :
    c.filter (fun x => x ∉ rng) = [] := by
  refine List.filter_eq_nil.mpr fun x hx => ?_
  have := List.all_eq_true.mp h x hx
  simp only [decide_eq_true_eq] at this
  simp [this]

lemma inter_loop_clean {w : World} {recurse : World → Addr → Graph → Graph → DiffM}
    (hrec : ∀ a g1 g2 res, recurse w a g1 g2 = .ok res → res = (w, g1, g2)) :
    ∀ (l : List OElem) (g1 g2 : Graph) (res : World × Graph × Graph),
      op_intersection_loop recurse l w g1 g2 = .ok res → res = (w, g1, g2) := by
  intro l
  induction l with
  | nil => intro g1 g2 res hok; cases hok; rfl
  | cons o os ih =>
    intro g1 g2 res hok
    cases o with
    | ref a =>
      rw [op_intersection_loop] at hok
      cases hr : recurse w a g1 g2 with
      | error e => rw [hr] at hok; cases hok
      | ok r =>
        rw [hr] at hok
        have := hrec a g1 g2 r hr
        subst this
        exact ih g1 g2 res hok
    | iriStr i =>
      rw [op_intersection_loop] at hok
      cases hreg : w.reg i with
      | some a =>
        simp only [hreg] at hok
        cases hr : recurse w a g1 g2 with
        | error e => rw [hr] at hok; cases hok
        | ok r =>
          rw [hr] at hok
          have := hrec a g1 g2 r hr
          subst this
          exact ih g1 g2 res hok
      | none =>
        simp only [hreg] at hok
        exact ih g1 g2 res hok
    | bad t => rw [op_intersection_loop] at hok; cases hok

lemma cleanField_obj_parts {w : World} {pred : Iri} {rng : List OElem}
    {cache : Option (List OElem)} (h : cleanField w (.obj pred rng cache) = true) :
    rangeDiff w rng (cache.getD []) = [] ∧ rangeDiff w (cache.getD []) rng = [] := by
  simp only [cleanField, Bool.and_eq_true] at h
  exact ⟨rangeDiff_nil h.1.2, rangeDiff_nil h.2⟩

lemma op_collect_clean {w : World} {recurse : Int → World → Addr → Graph → Graph → DiffM}
    {d : Int} (pred : Iri) (rng : List OElem) (cache : Option (List OElem))
    (hfield : cleanField w (.obj pred rng cache) = true)
    (hrec : flag_collect d = true →
      ∀ a g1 g2 res, recurse (next_recursive_depth d) w a g1 g2 = .ok res → res = (w, g1, g2)) :
    ∀ (subject : Iri) (g1 g2 : Graph) (res : World × Graph × Graph),
      op_collect_range_diff_to_graph recurse w subject ⟨pred, rng⟩ ⟨pred, cache.getD []⟩ g1 g2 d
        = .ok res → res = (w, g1, g2) := by
  intro subject g1 g2 res hok
  obtain ⟨hd1, hd2⟩ := cleanField_obj_parts hfield
  unfold op_collect_range_diff_to_graph at hok
  rw [hd1, hd2] at hok
  simp only [op_diff_add_loop, op_diff_remove_loop] at hok
  by_cases hf : flag_collect d
  · rw [if_pos hf] at hok
    exact inter_loop_clean (hrec hf) _ g1 g2 res hok
  · rw [if_neg hf] at hok
    cases hok
    rfl

lemma dp_collect_clean {w : World} {pred : Iri} {rng : List Lit} {cache : Option (List Lit)}
    (hfield : cleanField w (.dat pred rng cache) = true) :
    ∀ (subject : Iri) (g1 g2 : Graph),
      dp_collect_range_diff_to_graph subject ⟨pred, rng⟩ ⟨pred, cache.getD []⟩ g1 g2
        = .ok (g1, g2) := by
  intro subject g1 g2
  simp only [cleanField, Bool.and_eq_true] at hfield
  unfold dp_collect_range_diff_to_graph
  rw [show ((cache.getD []).filter (fun x => x ∉ rng)) = [] from litFilter_nil hfield.2,
    show (rng.filter (fun x => x ∉ cache.getD [])) = [] from litFilter_nil hfield.1]
  rfl

lemma fields_loop_clean {w : World} {recurse : Int → World → Addr → Graph → Graph → DiffM}
    (subject : Iri) (d : Int)
    (hrec : flag_collect d = true →
      ∀ a g1 g2 res, recurse (next_recursive_depth d) w a g1 g2 = .ok res → res = (w, g1, g2)) :
    ∀ (fs : List FieldSt), fs.all (cleanField w) = true →
      ∀ (g1 g2 : Graph) (res : World × Graph × Graph),
        fields_diff_loop recurse subject d fs w g1 g2 = .ok res → res = (w, g1, g2) := by
  intro fs
  induction fs with
  | nil => intro _ g1 g2 res hok; cases hok; rfl
  | cons f fs ih =>
    intro hall g1 g2 res hok
    have hf : cleanField w f = true := List.all_eq_true.mp hall f (List.mem_cons_self f fs)
    have hfs : fs.all (cleanField w) = true :=
      List.all_eq_true.mpr fun x hx => List.all_eq_true.mp hall x (List.mem_cons_of_mem f hx)
    cases f with
    | obj pred rng cache =>
      rw [fields_diff_loop] at hok
      cases h1 : op_collect_range_diff_to_graph recurse w subject ⟨pred, rng⟩
          ⟨pred, cache.getD []⟩ g1 g2 d with
      | error e => rw [h1] at hok; cases hok
      | ok r =>
        rw [h1] at hok
        have := op_collect_clean pred rng cache hf hrec subject g1 g2 r h1
        subst this
        exact ih hfs g1 g2 res hok
    | dat pred rng cache =>
      rw [fields_diff_loop] at hok
      rw [dp_collect_clean hf subject g1 g2] at hok
      exact ih hfs g1 g2 res hok

lemma fields_loop_clean0 {w : World} {recurse : Int → World → Addr → Graph → Graph → DiffM}
    (subject : Iri) (d : Int) (hd : flag_collect d = false) :
    ∀ (fs : List FieldSt), fs.all (cleanField w) = true →
      ∀ (g1 g2 : Graph),
        fields_diff_loop recurse subject d fs w g1 g2 = .ok (w, g1, g2) := by
  intro fs
  induction fs with
  | nil => intro _ g1 g2; rfl
  | cons f fs ih =>
    intro hall g1 g2
    have hf : cleanField w f = true := List.all_eq_true.mp hall f (List.mem_cons_self f fs)
    have hfs : fs.all (cleanField w) = true :=
      List.all_eq_true.mpr fun x hx => List.all_eq_true.mp hall x (List.mem_cons_of_mem f hx)
    cases f with
    | obj pred rng cache =>
      rw [fields_diff_loop]
      obtain ⟨hd1, hd2⟩ := cleanField_obj_parts hf
      unfold op_collect_range_diff_to_graph
      rw [hd1, hd2]
      simp only [op_diff_add_loop, op_diff_remove_loop, hd, if_neg (by simp : ¬ (false = true))]
      exact ih hfs g1 g2
    | dat pred rng cache =>
      rw [fields_diff_loop, dp_collect_clean hf subject g1 g2]
      exact ih hfs g1 g2

lemma collect_diff_clean_all {w : World} (hw : ∀ b, cleanInst w (w.heap b) = true) :
    ∀ (fuel : Nat) (d : Int) (a : Addr) (g1 g2 : Graph) (res : World × Graph × Graph),
      collect_diff_to_graph fuel d w a g1 g2 = .ok res → res = (w, g1, g2) := by
  intro fuel
  induction fuel with
  | zero => intro d a g1 g2 res h; cases h
  | succ fuel ih =>
    intro d a g1 g2 res hok
    obtain ⟨hfields, hq, hne, hc⟩ := cleanInst_parts (hw a)
    have hflag := clean_type_flag hq hne
    simp only [collect_diff_to_graph] at hok
    rw [clean_comment_remove hc, clean_comment_add hc,
      clean_type_add hflag, clean_type_world hflag] at hok
    exact fields_loop_clean (w.heap a).instance_iri d
      (fun _ a' g1' g2' res' h' => ih _ a' g1' g2' res' h') (w.heap a).fields hfields g1 g2 res hok

/-- C2 (amended): for an instance whose cache snapshot equals its current
property state exactly, `collect_diff_to_graph` adds no triple at depth
budget 0; at every other depth budget (including `-1`) the same holds
whenever the run terminates, provided every live instance of the world is
equally clean — without that proviso recursion through unchanged
references can reach a dirty neighbor and emit its triples (see the
counterexample). -/
theorem diff_clean_no_triples :
    (∀ (w : World) (a : Addr) (fuel : Nat) (g1 g2 : Graph),
      cleanInst w (w.heap a) = true →
      collect_diff_to_graph (fuel + 1) 0 w a g1 g2 = .ok (w, g1, g2)) ∧
    (∀ (w : World), (∀ b, cleanInst w (w.heap b) = true) →
      ∀ (fuel : Nat) (d : Int) (a : Addr) (g1 g2 : Graph) (res : World × Graph × Graph),
        collect_diff_to_graph fuel d w a g1 g2 = .ok res → res = (w, g1, g2)) := by
  constructor
  · intro w a fuel g1 g2 hclean
    obtain ⟨hfields, hq, hne, hc⟩ := cleanInst_parts hclean
    have hflag := clean_type_flag hq hne
    simp only [collect_diff_to_graph]
    rw [clean_comment_remove hc, clean_comment_add hc,
      clean_type_add hflag, clean_type_world hflag]
    exact fields_loop_clean0 (w.heap a).instance_iri 0 (by decide) (w.heap a).fields hfields g1 g2
  · intro w hw
    exact collect_diff_clean_all hw

/-- Witness for C2 (amended) at the concrete clean world. -/
theorem diff_clean_no_triples_witness :
    collect_diff_to_graph 1 0 wClean 0 ∅ ∅ = .ok (wClean, ∅, ∅) :=
  diff_clean_no_triples.1 wClean 0 0 ∅ ∅ (by decide)

lemma withG_empty (m : DiffM) : withG ∅ ∅ m = m := by
  cases m with
  | ok res => obtain ⟨w, r, a⟩ := res; simp [withG]
  | error e => rfl

lemma withG_comp (g1 g2 h1 h2 : Graph) (m : DiffM) :
    withG g1 g2 (withG h1 h2 m) = withG (g1 ∪ h1) (g2 ∪ h2) m := by
  cases m with
  | ok res => obtain ⟨w, r, a⟩ := res; simp [withG, Finset.union_assoc]
  | error e => rfl

lemma withG_congr {g1 g2 h1 h2 : Graph} (m : DiffM) (e1 : g1 = h1) (e2 : g2 = h2) :
    withG g1 g2 m = withG h1 h2 m := by
  rw [e1, e2]

lemma dp_diff_loop_hom (subject pred : Iri) :
    ∀ (l : List Lit) (g : Graph),
      dp_diff_loop subject pred l g
        = match dp_diff_loop subject pred l ∅ with
          | .ok g' => .ok (g ∪ g')
          | .error e => .error e := by
  intro l
  induction l with
  | nil => intro g; simp [dp_diff_loop]
  | cons x xs ih =>
    intro g
    rw [dp_diff_loop, dp_diff_loop]
    unfold add_property_to_graph
    cases hx : litNode x with
    | none => rfl
    | some node =>
      simp only []
      rw [ih (insert ⟨subject, pred, node⟩ g), ih (insert ⟨subject, pred, node⟩ ∅)]
      cases hrest : dp_diff_loop subject pred xs ∅ with
      | error e => rfl
      | ok g' =>
        simp only []
        rw [Finset.insert_eq, Finset.insert_eq]
        simp [Finset.union_assoc, Finset.union_left_comm, Finset.union_comm]

lemma dp_collect_hom (subject : Iri) (self cache : DPState) (g1 g2 : Graph) :
    dp_collect_range_diff_to_graph subject self cache g1 g2
      = match dp_collect_range_diff_to_graph subject self cache ∅ ∅ with
        | .ok (r, a) => .ok (g1 ∪ r, g2 ∪ a)
        | .error e => .error e := by
  unfold dp_collect_range_diff_to_graph
  rw [dp_diff_loop_hom subject self.predicate_iri _ g1,
    dp_diff_loop_hom subject self.predicate_iri _ g2]
  cases h1 : dp_diff_loop subject self.predicate_iri
      (cache.range.filter (fun x => x ∉ self.range)) ∅ with
  | error e => rfl
  | ok r =>
    simp only []
    cases h2 : dp_diff_loop subject self.predicate_iri
        (self.range.filter (fun x => x ∉ cache.range)) ∅ with
    | error e => rfl
    | ok a => simp

lemma withG_ok (g1 g2 : Graph) (w : World) (r a : Graph) :
    withG g1 g2 (.ok (w, r, a)) = .ok (w, g1 ∪ r, g2 ∪ a) := rfl

lemma withG_error (g1 g2 : Graph) (e : DErr) :
    withG g1 g2 (.error e) = .error e := rfl

lemma op_add_loop_hom {recurse : World → Addr → Graph → Graph → DiffM}
    (hh : HomRec recurse) (subject pred : Iri) (flag : Bool) :
    ∀ (l : List OElem) (w : World) (g1 g2 : Graph),
      op_diff_add_loop recurse subject pred flag l w g1 g2
        = withG g1 g2 (op_diff_add_loop recurse subject pred flag l w ∅ ∅) := by
  intro l
  induction l with
  | nil => intro w g1 g2; simp [op_diff_add_loop, withG]
  | cons o os ih =>
    intro w g1 g2
    cases o with
    | ref a =>
      rw [op_diff_add_loop, op_diff_add_loop]
      by_cases hf : flag
      · rw [if_pos hf, if_pos hf,
          hh w a g1 (insert ⟨subject, pred, .iri (w.heap a).instance_iri⟩ g2),
          hh w a ∅ (insert ⟨subject, pred, .iri (w.heap a).instance_iri⟩ ∅)]
        cases hm : recurse w a ∅ ∅ with
        | error e => rfl
        | ok res =>
          obtain ⟨w1, r1, a1⟩ := res
          simp only [withG_ok]
          rw [ih w1 (g1 ∪ r1) (insert ⟨subject, pred, .iri (w.heap a).instance_iri⟩ g2 ∪ a1),
            ih w1 (∅ ∪ r1) (insert ⟨subject, pred, .iri (w.heap a).instance_iri⟩ ∅ ∪ a1),
            withG_comp]
          refine withG_congr _ (by simp) ?_
          rw [Finset.insert_eq, Finset.insert_eq]
          simp [Finset.union_assoc, Finset.union_left_comm, Finset.union_comm]
      · rw [if_neg hf, if_neg hf,
          ih w g1 (insert ⟨subject, pred, .iri (w.heap a).instance_iri⟩ g2),
          ih w ∅ (insert ⟨subject, pred, .iri (w.heap a).instance_iri⟩ ∅),
          withG_comp]
        refine withG_congr _ (by simp) ?_
        rw [Finset.insert_eq, Finset.insert_eq]
        simp [Finset.union_assoc, Finset.union_left_comm, Finset.union_comm]
    | iriStr i =>
      rw [op_diff_add_loop, op_diff_add_loop]
      by_cases hf : flag
      · rw [if_pos hf, if_pos hf]
        cases hreg : w.reg i with
        | some a =>
          simp only [hreg]
          rw [hh w a g1 (insert ⟨subject, pred, .iri i⟩ g2),
            hh w a ∅ (insert ⟨subject, pred, .iri i⟩ ∅)]
          cases hm : recurse w a ∅ ∅ with
          | error e => rfl
          | ok res =>
            obtain ⟨w1, r1, a1⟩ := res
            simp only [withG_ok]
            rw [ih w1 (g1 ∪ r1) (insert ⟨subject, pred, .iri i⟩ g2 ∪ a1),
              ih w1 (∅ ∪ r1) (insert ⟨subject, pred, .iri i⟩ ∅ ∪ a1),
              withG_comp]
            refine withG_congr _ (by simp) ?_
            rw [Finset.insert_eq, Finset.insert_eq]
            simp [Finset.union_assoc, Finset.union_left_comm, Finset.union_comm]
        | none =>
          simp only [hreg]
          rw [ih w g1 (insert ⟨subject, pred, .iri i⟩ g2),
            ih w ∅ (insert ⟨subject, pred, .iri i⟩ ∅),
            withG_comp]
          refine withG_congr _ (by simp) ?_
          rw [Finset.insert_eq, Finset.insert_eq]
          simp [Finset.union_assoc, Finset.union_left_comm, Finset.union_comm]
      · rw [if_neg hf, if_neg hf,
          ih w g1 (insert ⟨subject, pred, .iri i⟩ g2),
          ih w ∅ (insert ⟨subject, pred, .iri i⟩ ∅),
          withG_comp]
        refine withG_congr _ (by simp) ?_
        rw [Finset.insert_eq, Finset.insert_eq]
        simp [Finset.union_assoc, Finset.union_left_comm, Finset.union_comm]
    | bad t => rfl

lemma op_remove_loop_hom {recurse : World → Addr → Graph → Graph → DiffM}
    (hh : HomRec recurse) (subject pred : Iri) (flag : Bool) :
    ∀ (l : List OElem) (w : World) (g1 g2 : Graph),
      op_diff_remove_loop recurse subject pred flag l w g1 g2
        = withG g1 g2 (op_diff_remove_loop recurse subject pred flag l w ∅ ∅) := by
  intro l
  induction l with
  | nil => intro w g1 g2; simp [op_diff_remove_loop, withG]
  | cons o os ih =>
    intro w g1 g2
    cases o with
    | ref a =>
      rw [op_diff_remove_loop, op_diff_remove_loop]
      by_cases hf : flag
      · rw [if_pos hf, if_pos hf,
          hh w a (insert ⟨subject, pred, .iri (w.heap a).instance_iri⟩ g1) g2,
          hh w a (insert ⟨subject, pred, .iri (w.heap a).instance_iri⟩ ∅) ∅]
        cases hm : recurse w a ∅ ∅ with
        | error e => rfl
        | ok res =>
          obtain ⟨w1, r1, a1⟩ := res
          simp only [withG_ok]
          rw [ih w1 (insert ⟨subject, pred, .iri (w.heap a).instance_iri⟩ g1 ∪ r1) (g2 ∪ a1),
            ih w1 (insert ⟨subject, pred, .iri (w.heap a).instance_iri⟩ ∅ ∪ r1) (∅ ∪ a1),
            withG_comp]
          refine withG_congr _ ?_ (by simp)
          rw [Finset.insert_eq, Finset.insert_eq]
          simp [Finset.union_assoc, Finset.union_left_comm, Finset.union_comm]
      · rw [if_neg hf, if_neg hf,
          ih w (insert ⟨subject, pred, .iri (w.heap a).instance_iri⟩ g1) g2,
          ih w (insert ⟨subject, pred, .iri (w.heap a).instance_iri⟩ ∅) ∅,
          withG_comp]
        refine withG_congr _ ?_ (by simp)
        rw [Finset.insert_eq, Finset.insert_eq]
        simp [Finset.union_assoc, Finset.union_left_comm, Finset.union_comm]
    | iriStr i =>
      rw [op_diff_remove_loop, op_diff_remove_loop]
      by_cases hf : flag
      · rw [if_pos hf, if_pos hf]
        cases hreg : w.reg i with
        | some a =>
          simp only [hreg]
          rw [hh w a (insert ⟨subject, pred, .iri i⟩ g1) g2,
            hh w a (insert ⟨subject, pred, .iri i⟩ ∅) ∅]
          cases hm : recurse w a ∅ ∅ with
          | error e => rfl
          | ok res =>
            obtain ⟨w1, r1, a1⟩ := res
            simp only [withG_ok]
            rw [ih w1 (insert ⟨subject, pred, .iri i⟩ g1 ∪ r1) (g2 ∪ a1),
              ih w1 (insert ⟨subject, pred, .iri i⟩ ∅ ∪ r1) (∅ ∪ a1),
              withG_comp]
            refine withG_congr _ ?_ (by simp)
            rw [Finset.insert_eq, Finset.insert_eq]
            simp [Finset.union_assoc, Finset.union_left_comm, Finset.union_comm]
        | none =>
          simp only [hreg]
          rw [ih w (insert ⟨subject, pred, .iri i⟩ g1) g2,
            ih w (insert ⟨subject, pred, .iri i⟩ ∅) ∅,
            withG_comp]
          refine withG_congr _ ?_ (by simp)
          rw [Finset.insert_eq, Finset.insert_eq]
          simp [Finset.union_assoc, Finset.union_left_comm, Finset.union_comm]
      · rw [if_neg hf, if_neg hf,
          ih w (insert ⟨subject, pred, .iri i⟩ g1) g2,
          ih w (insert ⟨subject, pred, .iri i⟩ ∅) ∅,
          withG_comp]
        refine withG_congr _ ?_ (by simp)
        rw [Finset.insert_eq, Finset.insert_eq]
        simp [Finset.union_assoc, Finset.union_left_comm, Finset.union_comm]
    | bad t => rfl

lemma op_intersection_loop_hom {recurse : World → Addr → Graph → Graph → DiffM}
    (hh : HomRec recurse) :
    ∀ (l : List OElem) (w : World) (g1 g2 : Graph),
      op_intersection_loop recurse l w g1 g2
        = withG g1 g2 (op_intersection_loop recurse l w ∅ ∅) := by
  intro l
  induction l with
  | nil => intro w g1 g2; simp [op_intersection_loop, withG]
  | cons o os ih =>
    intro w g1 g2
    cases o with
    | ref a =>
      rw [op_intersection_loop, op_intersection_loop, hh w a g1 g2]
      cases hm : recurse w a ∅ ∅ with
      | error e => rfl
      | ok res =>
        obtain ⟨w1, r1, a1⟩ := res
        simp only [withG_ok]
        rw [ih w1 (g1 ∪ r1) (g2 ∪ a1), ih w1 r1 a1, withG_comp]
    | iriStr i =>
      rw [op_intersection_loop, op_intersection_loop]
      cases hreg : w.reg i with
      | some a =>
        simp only [hreg]
        rw [hh w a g1 g2]
        cases hm : recurse w a ∅ ∅ with
        | error e => rfl
        | ok res =>
          obtain ⟨w1, r1, a1⟩ := res
          simp only [withG_ok]
          rw [ih w1 (g1 ∪ r1) (g2 ∪ a1), ih w1 r1 a1, withG_comp]
      | none =>
        simp only [hreg]
        exact ih w g1 g2
    | bad t => rfl

lemma fold_recurse_hom {recurse : World → Addr → Graph → Graph → DiffM}
    (hh : HomRec recurse) :
    ∀ (l : List Addr) (w : World) (g1 g2 : Graph),
      fold_recurse recurse l w g1 g2 = withG g1 g2 (fold_recurse recurse l w ∅ ∅) := by
  intro l
  induction l with
  | nil => intro w g1 g2; simp [fold_recurse, withG]
  | cons a rest ih =>
    intro w g1 g2
    rw [fold_recurse, fold_recurse, hh w a g1 g2]
    cases hm : recurse w a ∅ ∅ with
    | error e => rfl
    | ok res =>
      obtain ⟨w1, r1, a1⟩ := res
      simp only [withG_ok]
      rw [ih w1 (g1 ∪ r1) (g2 ∪ a1), ih w1 r1 a1, withG_comp]

lemma comment_remove_hom (st : InstState) (g : Graph) :
    comment_remove_step st g = g ∪ comment_remove_step st ∅ := by
  unfold comment_remove_step
  split
  · cases st.cache_rdfs_comment with
    | some c => simp [Finset.insert_eq, Finset.union_comm]
    | none => simp
  · simp

lemma comment_add_hom (st : InstState) (g : Graph) :
    comment_add_step st g = g ∪ comment_add_step st ∅ := by
  unfold comment_add_step
  split
  · cases st.rdfs_comment with
    | some c => simp [Finset.insert_eq, Finset.union_comm]
    | none => simp
  · simp

lemma type_add_hom (st : InstState) (g : Graph) :
    type_add_step st g = g ∪ type_add_step st ∅ := by
  unfold type_add_step
  split
  · simp [Finset.insert_eq, Finset.union_comm]
  · simp

lemma op_collect_hom {recurse : Int → World → Addr → Graph → Graph → DiffM}
    (hh : ∀ d, HomRec (recurse d)) (w : World) (subject : Iri)
    (self cache : OPState) (g1 g2 : Graph) (d : Int) :
    op_collect_range_diff_to_graph recurse w subject self cache g1 g2 d
      = withG g1 g2 (op_collect_range_diff_to_graph recurse w subject self cache ∅ ∅ d) := by
  unfold op_collect_range_diff_to_graph
  rw [op_add_loop_hom (hh _) subject self.predicate_iri _ _ w g1 g2]
  cases hA : op_diff_add_loop (recurse (next_recursive_depth d)) subject self.predicate_iri
      (flag_collect d) (rangeDiff w self.range cache.range) w ∅ ∅ with
  | error e => rfl
  | ok res =>
    obtain ⟨w1, r1, a1⟩ := res
    simp only [withG_ok]
    rw [op_remove_loop_hom (hh _) subject self.predicate_iri _ _ w1 (g1 ∪ r1) (g2 ∪ a1),
      op_remove_loop_hom (hh _) subject self.predicate_iri _ _ w1 r1 a1]
    cases hR : op_diff_remove_loop (recurse (next_recursive_depth d)) subject self.predicate_iri
        (flag_collect d) (rangeDiff w cache.range self.range) w1 ∅ ∅ with
    | error e => rfl
    | ok res2 =>
      obtain ⟨w2, r2, a2⟩ := res2
      simp only [withG_ok]
      by_cases hf : flag_collect d
      · rw [if_pos hf, if_pos hf,
          op_intersection_loop_hom (hh _) _ w2 (g1 ∪ r1 ∪ r2) (g2 ∪ a1 ∪ a2),
          op_intersection_loop_hom (hh _) _ w2 (r1 ∪ r2) (a1 ∪ a2),
          withG_comp]
        exact withG_congr _ (by simp [Finset.union_assoc]) (by simp [Finset.union_assoc])
      · rw [if_neg hf, if_neg hf]
        simp [withG, Finset.union_assoc]

lemma fields_loop_hom {recurse : Int → World → Addr → Graph → Graph → DiffM}
    (hh : ∀ d, HomRec (recurse d)) (subject : Iri) (d : Int) :
    ∀ (fs : List FieldSt) (w : World) (g1 g2 : Graph),
      fields_diff_loop recurse subject d fs w g1 g2
        = withG g1 g2 (fields_diff_loop recurse subject d fs w ∅ ∅) := by
  intro fs
  induction fs with
  | nil => intro w g1 g2; simp [fields_diff_loop, withG]
  | cons f fs ih =>
    intro w g1 g2
    cases f with
    | obj pred rng cache =>
      rw [fields_diff_loop, fields_diff_loop,
        op_collect_hom hh w subject ⟨pred, rng⟩ ⟨pred, cache.getD []⟩ g1 g2 d]
      cases hc : op_collect_range_diff_to_graph recurse w subject ⟨pred, rng⟩
          ⟨pred, cache.getD []⟩ ∅ ∅ d with
      | error e => rfl
      | ok res =>
        obtain ⟨w1, r1, a1⟩ := res
        simp only [withG_ok]
        rw [ih w1 (g1 ∪ r1) (g2 ∪ a1), ih w1 r1 a1, withG_comp]
    | dat pred rng cache =>
      rw [fields_diff_loop, fields_diff_loop,
        dp_collect_hom subject ⟨pred, rng⟩ ⟨pred, cache.getD []⟩ g1 g2]
      cases hc : dp_collect_range_diff_to_graph subject ⟨pred, rng⟩ ⟨pred, cache.getD []⟩ ∅ ∅ with
      | error e => rfl
      | ok res =>
        obtain ⟨r1, a1⟩ := res
        simp only []
        rw [ih w (g1 ∪ r1) (g2 ∪ a1), ih w r1 a1, withG_comp]

lemma collect_diff_hom :
    ∀ (fuel : Nat) (d : Int), HomRec (collect_diff_to_graph fuel d) := by
  intro fuel
  induction fuel with
  | zero => intro d w a g1 g2; rfl
  | succ fuel ih =>
    intro d w a g1 g2
    rw [collect_diff_to_graph]
    simp only []
    rw [comment_remove_hom (w.heap a) g1, comment_add_hom (w.heap a) g2,
      type_add_hom (w.heap a) (g2 ∪ comment_add_step (w.heap a) ∅),
      fields_loop_hom ih (w.heap a).instance_iri d (w.heap a).fields (type_world_step w a),
      comment_add_hom (w.heap a) (∅ : Graph),
      type_add_hom (w.heap a) ((∅ : Graph) ∪ comment_add_step (w.heap a) ∅),
      fields_loop_hom ih (w.heap a).instance_iri d (w.heap a).fields (type_world_step w a)
        (comment_remove_step (w.heap a) ∅)
        (∅ ∪ comment_add_step (w.heap a) ∅ ∪ type_add_step (w.heap a) ∅),
      withG_comp]
    exact withG_congr _ (by simp) (by simp [Finset.union_assoc])

lemma frame_heap_iri {w w' : World} (h : WorldFrame w w') (b : Addr) :
    (w'.heap b).instance_iri = (w.heap b).instance_iri := by
  rw [h.2.2 b]

lemma frame_elemIri_fun {w w' : World} (h : WorldFrame w w') :
    elemIri w' = elemIri w := by
  funext o
  cases o with
  | ref a => exact frame_heap_iri h a
  | iriStr i => rfl
  | bad t => rfl

lemma frame_resolveLive_fun {w w' : World} (h : WorldFrame w w') :
    resolveLive w' = resolveLive w := by
  funext o
  cases o with
  | ref a => rfl
  | iriStr i => show w'.reg i = w.reg i; rw [h.2.1]
  | bad t => rfl

lemma fold_recurse_frame {recurse : World → Addr → Graph → Graph → DiffM}
    (hfr : FrameRec recurse) :
    ∀ (l : List Addr) (w : World) (g1 g2 : Graph) (w' : World) (r ad : Graph),
      fold_recurse recurse l w g1 g2 = .ok (w', r, ad) → WorldFrame w w' := by
  intro l
  induction l with
  | nil => intro w g1 g2 w' r ad hok; cases hok; exact frame_refl w
  | cons a rest ih =>
    intro w g1 g2 w' r ad hok
    rw [fold_recurse] at hok
    cases hm : recurse w a g1 g2 with
    | error e => rw [hm] at hok; cases hok
    | ok res =>
      rw [hm] at hok
      obtain ⟨w1, r1, a1⟩ := res
      exact frame_trans (hfr w a g1 g2 w1 r1 a1 hm) (ih w1 r1 a1 w' r ad hok)

lemma fold_recurse_append (recurse : World → Addr → Graph → Graph → DiffM) :
    ∀ (l1 l2 : List Addr) (w : World) (g1 g2 : Graph),
      fold_recurse recurse (l1 ++ l2) w g1 g2
        = match fold_recurse recurse l1 w g1 g2 with
          | .ok (w', g1', g2') => fold_recurse recurse l2 w' g1' g2'
          | .error e => .error e := by
  intro l1
  induction l1 with
  | nil => intro l2 w g1 g2; rfl
  | cons a rest ih =>
    intro l2 w g1 g2
    rw [List.cons_append, fold_recurse, fold_recurse]
    cases hm : recurse w a g1 g2 with
    | error e => rfl
    | ok res =>
      obtain ⟨w1, r1, a1⟩ := res
      simp only []
      exact ih l2 w1 r1 a1

lemma op_add_loop_spec {recurse : World → Addr → Graph → Graph → DiffM}
    (hfr : FrameRec recurse) (hh : HomRec recurse) (subject pred : Iri) :
    ∀ (l : List OElem) (w : World) (g1 g2 : Graph), noBadB l = true →
      op_diff_add_loop recurse subject pred true l w g1 g2
        = fold_recurse recurse (l.filterMap (resolveLive w)) w g1
            (g2 ∪ (l.map (fun o => (⟨subject, pred, .iri (elemIri w o)⟩ : Triple))).toFinset) := by
  intro l
  induction l with
  | nil => intro w g1 g2 _; simp [op_diff_add_loop, fold_recurse]
  | cons o os ih =>
    intro w g1 g2 h
    have hos : noBadB os = true :=
      List.all_eq_true.mpr fun x hx => List.all_eq_true.mp h x (List.mem_cons_of_mem o hx)
    cases o with
    | ref a =>
      rw [op_diff_add_loop, List.filterMap_cons]
      simp only [resolveLive, eq_self_iff_true, if_true, fold_recurse, List.map_cons, List.toFinset_cons]
      rw [hh w a g1 (insert ⟨subject, pred, .iri (w.heap a).instance_iri⟩ g2),
        hh w a g1 (g2 ∪ insert ⟨subject, pred, .iri (elemIri w (OElem.ref a))⟩
          ((os.map (fun o => (⟨subject, pred, .iri (elemIri w o)⟩ : Triple))).toFinset))]
      cases hm : recurse w a ∅ ∅ with
      | error e => rfl
      | ok res =>
        obtain ⟨w1, r1, a1⟩ := res
        have hfw : WorldFrame w w1 := hfr w a ∅ ∅ w1 r1 a1 hm
        simp only [withG_ok]
        rw [ih w1 (g1 ∪ r1) _ hos, frame_resolveLive_fun hfw, frame_elemIri_fun hfw]
        congr 1
        show insert ⟨subject, pred, .iri (w.heap a).instance_iri⟩ g2 ∪ a1
            ∪ (os.map (fun o => (⟨subject, pred, .iri (elemIri w o)⟩ : Triple))).toFinset
          = g2 ∪ insert ⟨subject, pred, .iri (elemIri w (OElem.ref a))⟩
              ((os.map (fun o => (⟨subject, pred, .iri (elemIri w o)⟩ : Triple))).toFinset) ∪ a1
        rw [Finset.insert_eq, Finset.insert_eq, show elemIri w (OElem.ref a) = (w.heap a).instance_iri from rfl]
        simp [Finset.union_assoc, Finset.union_left_comm, Finset.union_comm]
    | iriStr i =>
      rw [op_diff_add_loop, List.filterMap_cons]
      simp only [resolveLive, eq_self_iff_true, if_true]
      cases hreg : w.reg i with
      | some a =>
        simp only [hreg, fold_recurse, List.map_cons, List.toFinset_cons]
        rw [hh w a g1 (insert ⟨subject, pred, .iri i⟩ g2),
          hh w a g1 (g2 ∪ insert ⟨subject, pred, .iri (elemIri w (OElem.iriStr i))⟩
            ((os.map (fun o => (⟨subject, pred, .iri (elemIri w o)⟩ : Triple))).toFinset))]
        cases hm : recurse w a ∅ ∅ with
        | error e => rfl
        | ok res =>
          obtain ⟨w1, r1, a1⟩ := res
          have hfw : WorldFrame w w1 := hfr w a ∅ ∅ w1 r1 a1 hm
          simp only [withG_ok]
          rw [ih w1 (g1 ∪ r1) _ hos, frame_resolveLive_fun hfw, frame_elemIri_fun hfw]
          congr 1
          rw [Finset.insert_eq, Finset.insert_eq, show elemIri w (OElem.iriStr i) = i from rfl]
          simp [Finset.union_assoc, Finset.union_left_comm, Finset.union_comm]
      | none =>
        simp only [hreg, List.map_cons, List.toFinset_cons]
        rw [ih w g1 _ hos]
        congr 1
        rw [Finset.insert_eq, Finset.insert_eq, show elemIri w (OElem.iriStr i) = i from rfl]
        simp [Finset.union_assoc, Finset.union_left_comm, Finset.union_comm]
    | bad t =>
      exact absurd (noBadB_mem h (List.mem_cons_self _ os)) (by simp [isBadB])

lemma op_remove_loop_spec {recurse : World → Addr → Graph → Graph → DiffM}
    (hfr : FrameRec recurse) (hh : HomRec recurse) (subject pred : Iri) :
    ∀ (l : List OElem) (w : World) (g1 g2 : Graph), noBadB l = true →
      op_diff_remove_loop recurse subject pred true l w g1 g2
        = fold_recurse recurse (l.filterMap (resolveLive w)) w
            (g1 ∪ (l.map (fun o => (⟨subject, pred, .iri (elemIri w o)⟩ : Triple))).toFinset) g2 := by
  intro l
  induction l with
  | nil => intro w g1 g2 _; simp [op_diff_remove_loop, fold_recurse]
  | cons o os ih =>
    intro w g1 g2 h
    have hos : noBadB os = true :=
      List.all_eq_true.mpr fun x hx => List.all_eq_true.mp h x (List.mem_cons_of_mem o hx)
    cases o with
    | ref a =>
      rw [op_diff_remove_loop, List.filterMap_cons]
      simp only [resolveLive, eq_self_iff_true, if_true, fold_recurse, List.map_cons, List.toFinset_cons]
      rw [hh w a (insert ⟨subject, pred, .iri (w.heap a).instance_iri⟩ g1) g2,
        hh w a (g1 ∪ insert ⟨subject, pred, .iri (elemIri w (OElem.ref a))⟩
          ((os.map (fun o => (⟨subject, pred, .iri (elemIri w o)⟩ : Triple))).toFinset)) g2]
      cases hm : recurse w a ∅ ∅ with
      | error e => rfl
      | ok res =>
        obtain ⟨w1, r1, a1⟩ := res
        have hfw : WorldFrame w w1 := hfr w a ∅ ∅ w1 r1 a1 hm
        simp only [withG_ok]
        rw [ih w1 _ (g2 ∪ a1) hos, frame_resolveLive_fun hfw, frame_elemIri_fun hfw]
        congr 1
        rw [Finset.insert_eq, Finset.insert_eq, show elemIri w (OElem.ref a) = (w.heap a).instance_iri from rfl]
        simp [Finset.union_assoc, Finset.union_left_comm, Finset.union_comm]
    | iriStr i =>
      rw [op_diff_remove_loop, List.filterMap_cons]
      simp only [resolveLive, eq_self_iff_true, if_true]
      cases hreg : w.reg i with
      | some a =>
        simp only [hreg, fold_recurse, List.map_cons, List.toFinset_cons]
        rw [hh w a (insert ⟨subject, pred, .iri i⟩ g1) g2,
          hh w a (g1 ∪ insert ⟨subject, pred, .iri (elemIri w (OElem.iriStr i))⟩
            ((os.map (fun o => (⟨subject, pred, .iri (elemIri w o)⟩ : Triple))).toFinset)) g2]
        cases hm : recurse w a ∅ ∅ with
        | error e => rfl
        | ok res =>
          obtain ⟨w1, r1, a1⟩ := res
          have hfw : WorldFrame w w1 := hfr w a ∅ ∅ w1 r1 a1 hm
          simp only [withG_ok]
          rw [ih w1 _ (g2 ∪ a1) hos, frame_resolveLive_fun hfw, frame_elemIri_fun hfw]
          congr 1
          rw [Finset.insert_eq, Finset.insert_eq, show elemIri w (OElem.iriStr i) = i from rfl]
          simp [Finset.union_assoc, Finset.union_left_comm, Finset.union_comm]
      | none =>
        simp only [hreg, List.map_cons, List.toFinset_cons]
        rw [ih w _ g2 hos]
        congr 1
        rw [Finset.insert_eq, Finset.insert_eq, show elemIri w (OElem.iriStr i) = i from rfl]
        simp [Finset.union_assoc, Finset.union_left_comm, Finset.union_comm]
    | bad t =>
      exact absurd (noBadB_mem h (List.mem_cons_self _ os)) (by simp [isBadB])

lemma op_intersection_loop_spec {recurse : World → Addr → Graph → Graph → DiffM}
    (hfr : FrameRec recurse) :
    ∀ (l : List OElem) (w : World) (g1 g2 : Graph), noBadB l = true →
      op_intersection_loop recurse l w g1 g2
        = fold_recurse recurse (l.filterMap (resolveLive w)) w g1 g2 := by
  intro l
  induction l with
  | nil => intro w g1 g2 _; rfl
  | cons o os ih =>
    intro w g1 g2 h
    have hos : noBadB os = true :=
      List.all_eq_true.mpr fun x hx => List.all_eq_true.mp h x (List.mem_cons_of_mem o hx)
    cases o with
    | ref a =>
      rw [op_intersection_loop, List.filterMap_cons]
      simp only [resolveLive, fold_recurse]
      cases hm : recurse w a g1 g2 with
      | error e => rfl
      | ok res =>
        obtain ⟨w1, r1, a1⟩ := res
        have hfw : WorldFrame w w1 := hfr w a g1 g2 w1 r1 a1 hm
        simp only []
        rw [ih w1 r1 a1 hos, frame_resolveLive_fun hfw]
    | iriStr i =>
      rw [op_intersection_loop, List.filterMap_cons]
      simp only [resolveLive]
      cases hreg : w.reg i with
      | some a =>
        simp only [hreg, fold_recurse]
        cases hm : recurse w a g1 g2 with
        | error e => rfl
        | ok res =>
          obtain ⟨w1, r1, a1⟩ := res
          have hfw : WorldFrame w w1 := hfr w a g1 g2 w1 r1 a1 hm
          simp only []
          rw [ih w1 r1 a1 hos, frame_resolveLive_fun hfw]
      | none =>
        simp only [hreg]
        exact ih w g1 g2 hos
    | bad t =>
      exact absurd (noBadB_mem h (List.mem_cons_self _ os)) (by simp [isBadB])

/-- C3: the source's reference-property diff step refines the spec's
description of recursion — recursion into referenced instances happens
exactly when `abs(depthBudget) > 0`, and then the diff recurses, with the
budget decremented (floored at 0 for non-negative budgets, `-1` staying
`-1` forever), into every element of the added set, the removed set and
the intersection that is a live instance or a bare identifier with a
resident instance (unresolvable identifiers are skipped), accumulating
into the same two graphs. -/
theorem op_range_diff_refines_spec :
    (∀ (fuel : Nat) (w : World) (subject : Iri) (self cache : OPState) (g1 g2 : Graph) (d : Int),
      noBadB self.range = true → noBadB cache.range = true →
      op_collect_range_diff_to_graph (collect_diff_to_graph fuel) w subject self cache g1 g2 d
        = op_collect_range_diff_spec (collect_diff_to_graph fuel) w subject self cache g1 g2 d) ∧
    (∀ d : Int, flag_collect d = true ↔ d ≠ 0) ∧
    (∀ d : Int, 0 ≤ d → next_recursive_depth d = max (d - 1) 0) ∧
    next_recursive_depth (-1) = -1 := by
  refine ⟨?_, ?_, ?_, by decide⟩
  · intro fuel w subject self cache g1 g2 d hs hc
    have hfr := collect_diff_frame fuel (next_recursive_depth d)
    have hh := collect_diff_hom fuel (next_recursive_depth d)
    have hAn : noBadB (rangeDiff w self.range cache.range) = true := by
      unfold rangeDiff; exact noBadB_filter _ hs
    have hRn : noBadB (rangeDiff w cache.range self.range) = true := by
      unfold rangeDiff; exact noBadB_filter _ hc
    have hIn : noBadB (rangeInter w self.range cache.range) = true := by
      unfold rangeInter; exact noBadB_filter _ hs
    unfold op_collect_range_diff_to_graph op_collect_range_diff_spec
    rw [op_added_edges, op_removed_edges, ← diff_edges_eq w subject self.predicate_iri _ _ hs hc,
      ← diff_edges_eq w subject self.predicate_iri _ _ hc hs]
    by_cases hf : flag_collect d = true
    · rw [hf]
      rw [if_pos rfl]
      rw [op_add_loop_spec hfr hh subject self.predicate_iri _ w g1 g2 hAn]
      rw [recursionTargets, List.filterMap_append, List.filterMap_append,
        fold_recurse_append _ (List.filterMap (resolveLive w) (rangeDiff w self.range cache.range)
          ++ List.filterMap (resolveLive w) (rangeDiff w cache.range self.range)) _,
        fold_recurse_append _ (List.filterMap (resolveLive w) (rangeDiff w self.range cache.range)) _]
      rw [fold_recurse_hom hh _ w g1 _, fold_recurse_hom hh _ w (g1 ∪ _) _]
      cases hF0 : fold_recurse (collect_diff_to_graph fuel (next_recursive_depth d))
          (List.filterMap (resolveLive w) (rangeDiff w self.range cache.range)) w ∅ ∅ with
      | error e => rfl
      | ok res =>
        obtain ⟨w1, r, ad⟩ := res
        have h1 : WorldFrame w w1 := fold_recurse_frame hfr _ w ∅ ∅ w1 r ad hF0
        simp only [withG_ok]
        rw [op_remove_loop_spec hfr hh subject self.predicate_iri _ w1 (g1 ∪ r) _ hRn,
          frame_resolveLive_fun h1, frame_elemIri_fun h1]
        have hg : (g1 ∪ r) ∪ ((rangeDiff w cache.range self.range).map
              (fun o => (⟨subject, self.predicate_iri, .iri (elemIri w o)⟩ : Triple))).toFinset
            = (g1 ∪ ((rangeDiff w cache.range self.range).map
              (fun o => (⟨subject, self.predicate_iri, .iri (elemIri w o)⟩ : Triple))).toFinset) ∪ r := by
          simp [Finset.union_assoc, Finset.union_left_comm, Finset.union_comm]
        rw [hg]
        cases hF1 : fold_recurse (collect_diff_to_graph fuel (next_recursive_depth d))
            (List.filterMap (resolveLive w) (rangeDiff w cache.range self.range)) w1
            ((g1 ∪ ((rangeDiff w cache.range self.range).map
              (fun o => (⟨subject, self.predicate_iri, .iri (elemIri w o)⟩ : Triple))).toFinset) ∪ r)
            ((g2 ∪ ((rangeDiff w self.range cache.range).map
              (fun o => (⟨subject, self.predicate_iri, .iri (elemIri w o)⟩ : Triple))).toFinset) ∪ ad) with
        | error e => rfl
        | ok res2 =>
          obtain ⟨w2, r2, a2⟩ := res2
          have h2 : WorldFrame w w2 :=
            frame_trans h1 (fold_recurse_frame hfr _ w1 _ _ w2 r2 a2 hF1)
          simp only [eq_self_iff_true, if_true]
          rw [op_intersection_loop_spec hfr _ w2 r2 a2 hIn, frame_resolveLive_fun h2]
    · have hf' : flag_collect d = false := by simpa using hf
      rw [hf']
      rw [op_add_loop_pure _ subject self.predicate_iri _ w g1 g2 hAn]
      simp only []
      rw [op_remove_loop_pure _ subject self.predicate_iri _ w g1 _ hRn]
      simp only [Bool.false_eq_true, if_false]
  · intro d
    rw [flag_collect]
    simp [abs_pos]
  · intro d hd
    rw [next_recursive_depth, if_pos (by omega : d > -1)]

/-- Witness for C3 at a concrete field state with recursion enabled. -/
theorem op_range_diff_refines_spec_witness :
    op_collect_range_diff_to_graph (collect_diff_to_graph 2) wC2 "urn:X"
      ⟨predP, [.ref 1]⟩ ⟨predP, [.iriStr "urn:Y"]⟩ ∅ ∅ 1
      = op_collect_range_diff_spec (collect_diff_to_graph 2) wC2 "urn:X"
        ⟨predP, [.ref 1]⟩ ⟨predP, [.iriStr "urn:Y"]⟩ ∅ ∅ 1 :=
  op_range_diff_refines_spec.1 2 wC2 "urn:X" ⟨predP, [.ref 1]⟩
    ⟨predP, [.iriStr "urn:Y"]⟩ ∅ ∅ 1 (by decide) (by decide)

lemma list_any_congr {α : Type} : ∀ (l : List α) (f g : α → Bool),
    (∀ x ∈ l, f x = g x) → l.any f = l.any g := by
  intro l
  induction l with
  | nil => intro f g _; rfl
  | cons x xs ih =>
    intro f g h
    rw [List.any_cons, List.any_cons, h x (List.mem_cons_self x xs),
      ih f g fun y hy => h y (List.mem_cons_of_mem x hy)]

lemma pyInsert_congr_noref {w1 w2 : World} {acc : List OElem} {o : OElem}
    (hacc : ∀ x ∈ acc, ∀ b, x ≠ OElem.ref b) (ho : ∀ b, o ≠ OElem.ref b) :
    pyInsert w1 acc o = pyInsert w2 acc o := by
  unfold pyInsert
  have hk : ∀ x : OElem, (∀ b, x ≠ OElem.ref b) → elemKey w1 x = elemKey w2 x := by
    intro x hx
    cases x with
    | ref b => exact absurd rfl (hx b)
    | iriStr i => rfl
    | bad t => rfl
  have : (acc.any fun x => elemKey w1 x = elemKey w1 o)
      = (acc.any fun x => elemKey w2 x = elemKey w2 o) := by
    refine list_any_congr acc _ _ fun x hx => ?_
    rw [show elemKey w1 x = elemKey w2 x from hk x (hacc x hx),
      show elemKey w1 o = elemKey w2 o from hk o ho]
  rw [this]

lemma foldl_pyInsert_congr_noref {w1 w2 : World} :
    ∀ (l acc : List OElem), (∀ x ∈ l, ∀ b, x ≠ OElem.ref b) →
      (∀ x ∈ acc, ∀ b, x ≠ OElem.ref b) →
      List.foldl (pyInsert w1) acc l = List.foldl (pyInsert w2) acc l := by
  intro l
  induction l with
  | nil => intro acc _ _; rfl
  | cons o os ih =>
    intro acc hl hacc
    have ho : ∀ b, o ≠ OElem.ref b := hl o (List.mem_cons_self o os)
    have hos : ∀ x ∈ os, ∀ b, x ≠ OElem.ref b :=
      fun x hx => hl x (List.mem_cons_of_mem o hx)
    have hacc' : ∀ x ∈ pyInsert w2 acc o, ∀ b, x ≠ OElem.ref b := by
      intro x hx
      unfold pyInsert at hx
      split at hx
      · exact hacc x hx
      · rcases List.mem_append.mp hx with hx | hx
        · exact hacc x hx
        · rw [List.mem_singleton.mp hx]; exact ho
    rw [List.foldl_cons, List.foldl_cons, pyInsert_congr_noref hacc ho]
    exact ih (pyInsert w2 acc o) hos hacc'

lemma pySet_congr_noref {w1 w2 : World} (l : List OElem)
    (hl : ∀ x ∈ l, ∀ b, x ≠ OElem.ref b) : pySet w1 l = pySet w2 l :=
  foldl_pyInsert_congr_noref l [] hl (by intro x hx; cases hx)

lemma reduced_list_noref (w : World) (rng : List OElem) :
    ∀ x ∈ rng.map (fun o =>
      match o with
      | OElem.ref b => OElem.iriStr (w.heap b).instance_iri
      | x => x), ∀ b, x ≠ OElem.ref b := by
  intro x hx b hxb
  rcases List.mem_map.mp hx with ⟨o, _, rfl⟩
  cases o <;> simp_all

lemma create_cache_field_obj (w : World) (pred : Iri) (rng : List OElem)
    (c : Option (List OElem)) :
    create_cache_field w (.obj pred rng c)
      = .obj pred rng (some (pySet w (rng.map (fun o =>
          match o with
          | OElem.ref b => OElem.iriStr (w.heap b).instance_iri
          | x => x)))) := rfl

lemma create_cache_field_congr {w1 w2 : World} {n : Nat}
    (hiri : ∀ b, b < n → (w1.heap b).instance_iri = (w2.heap b).instance_iri) :
    ∀ {f : FieldSt}, fieldRefsBoundB n f = true →
      create_cache_field w1 f = create_cache_field w2 f := by
  intro f hb
  cases f with
  | dat pred rng c => rfl
  | obj pred rng c =>
    rw [create_cache_field_obj, create_cache_field_obj]
    have hmap : rng.map (fun o =>
        match o with
        | OElem.ref b => OElem.iriStr (w1.heap b).instance_iri
        | x => x)
      = rng.map (fun o =>
        match o with
        | OElem.ref b => OElem.iriStr (w2.heap b).instance_iri
        | x => x) := by
      refine List.map_congr_left fun o ho => ?_
      cases o with
      | ref b =>
        have hlt : b < n := by
          have := List.all_eq_true.mp hb (OElem.ref b) ho
          simpa using this
        simp only [hiri b hlt]
      | iriStr i => rfl
      | bad t => rfl
    rw [hmap, pySet_congr_noref _ (reduced_list_noref w2 rng)]

lemma create_cache_field_congr_all {w1 w2 : World}
    (hiri : ∀ b, (w1.heap b).instance_iri = (w2.heap b).instance_iri) (f : FieldSt) :
    create_cache_field w1 f = create_cache_field w2 f := by
  cases f with
  | dat pred rng c => rfl
  | obj pred rng c =>
    rw [create_cache_field_obj, create_cache_field_obj]
    have hmap : rng.map (fun o =>
        match o with
        | OElem.ref b => OElem.iriStr (w1.heap b).instance_iri
        | x => x)
      = rng.map (fun o =>
        match o with
        | OElem.ref b => OElem.iriStr (w2.heap b).instance_iri
        | x => x) := by
      refine List.map_congr_left fun o ho => ?_
      cases o with
      | ref b => simp only [hiri b]
      | iriStr i => rfl
      | bad t => rfl
    rw [hmap, pySet_congr_noref _ (reduced_list_noref w2 rng)]

lemma ccf_idem (w : World) (f : FieldSt) :
    create_cache_field w (create_cache_field w f) = create_cache_field w f := by
  cases f <;> rfl

lemma refresh_heap_at (w : World) (a : Addr) :
    (refresh_cache w a).heap a
      = { w.heap a with
          exist_in_kg := true
          fields := (w.heap a).fields.map (create_cache_field w)
          cache_rdf_type := some (w.heap a).rdf_type
          cache_rdfs_comment := (w.heap a).rdfs_comment } := by
  simp [refresh_cache, World.updateInst, Function.update]

lemma refresh_heap_ne (w : World) (a b : Addr) (h : b ≠ a) :
    (refresh_cache w a).heap b = w.heap b := by
  simp [refresh_cache, World.updateInst, Function.update, h]

lemma refresh_iri_all (w : World) (a : Addr) (b : Addr) :
    ((refresh_cache w a).heap b).instance_iri = (w.heap b).instance_iri := by
  by_cases h : b = a
  · subst h; rw [refresh_heap_at]
  · rw [refresh_heap_ne w a b h]

lemma ccf_rangeSig (w : World) (f : FieldSt) :
    fieldRangeSig (create_cache_field w f) = fieldRangeSig f := by
  cases f <;> rfl

lemma instSig_refresh (w : World) (a b : Addr) :
    instSig ((refresh_cache w a).heap b) = instSig (w.heap b) := by
  by_cases h : b = a
  · subst h
    rw [refresh_heap_at]
    unfold instSig
    simp only [List.map_map]
    congr 1
    exact List.map_congr_left fun f _ => ccf_rangeSig w f
  · rw [refresh_heap_ne w a b h]

lemma frb_rangeSig (n : Nat) (f : FieldSt) :
    fieldRefsBoundB n (fieldRangeSig f) = fieldRefsBoundB n f := by
  cases f <;> rfl

lemma list_all_congr {α : Type} : ∀ (l : List α) (f g : α → Bool),
    (∀ x ∈ l, f x = g x) → l.all f = l.all g := by
  intro l
  induction l with
  | nil => intro f g _; rfl
  | cons x xs ih =>
    intro f g h
    rw [List.all_cons, List.all_cons, h x (List.mem_cons_self x xs),
      ih f g fun y hy => h y (List.mem_cons_of_mem x hy)]

lemma refsBound_of_instSig {s t : InstState} (h : instSig s = instSig t) (n : Nat) :
    s.fields.all (fieldRefsBoundB n) = t.fields.all (fieldRefsBoundB n) := by
  have hf : s.fields.map fieldRangeSig = t.fields.map fieldRangeSig := by
    have := congrArg InstState.fields h
    simpa [instSig] using this
  have h1 : (s.fields.map fieldRangeSig).all (fieldRefsBoundB n)
      = s.fields.all (fieldRefsBoundB n) := by
    rw [List.all_map]
    exact list_all_congr _ _ _ fun f _ => by
      rw [Function.comp_apply, frb_rangeSig]
  have h2 : (t.fields.map fieldRangeSig).all (fieldRefsBoundB n)
      = t.fields.all (fieldRefsBoundB n) := by
    rw [List.all_map]
    exact list_all_congr _ _ _ fun f _ => by
      rw [Function.comp_apply, frb_rangeSig]
  rw [← h1, hf, h2]

lemma cacheGood_refresh (w : World) (a : Addr) : CacheGood (refresh_cache w a) a := by
  unfold CacheGood
  have hccf : create_cache_field (refresh_cache w a) = create_cache_field w :=
    funext (create_cache_field_congr_all (refresh_iri_all w a))
  rw [refresh_heap_at (refresh_cache w a) a, refresh_heap_at w a]
  unfold cacheSig
  simp only [hccf, List.map_map]
  refine congrArg (Prod.mk _) ?_
  refine congrArg (Prod.mk _) ?_
  exact List.map_congr_left fun f _ => by
    simp only [Function.comp_apply, ccf_idem]

lemma cacheGood_preserve {w w' : World} {n : Nat} {a : Addr}
    (hheap : w'.heap a = w.heap a)
    (hiri : ∀ b, b < n → (w'.heap b).instance_iri = (w.heap b).instance_iri)
    (hb : (w.heap a).fields.all (fieldRefsBoundB n) = true)
    (hcg : CacheGood w a) : CacheGood w' a := by
  unfold CacheGood at hcg ⊢
  rw [hheap, hcg, refresh_heap_at, refresh_heap_at, hheap]
  unfold cacheSig
  refine congrArg (Prod.mk _) ?_
  refine congrArg (Prod.mk _) ?_
  refine congrArg (List.map fieldCacheSig) ?_
  exact List.map_congr_left fun f hf =>
    (create_cache_field_congr hiri (List.all_eq_true.mp hb f hf)).symm

lemma iri_of_instSig {s t : InstState} (h : instSig s = instSig t) :
    s.instance_iri = t.instance_iri := by
  have := congrArg InstState.instance_iri h
  simpa [instSig] using this

lemma pullStepOK_refl (w : World) : PullStepOK w w :=
  ⟨le_refl _, fun _ _ => rfl, fun _ _ h => h, fun _ _ _ _ _ h => h⟩

lemma pullStepOK_trans {w w1 w2 : World} (h1 : PullStepOK w w1) (h2 : PullStepOK w1 w2) :
    PullStepOK w w2 := by
  refine ⟨le_trans h1.1 h2.1, ?_, ?_, ?_⟩
  · intro b hb
    rw [h2.2.1 b (lt_of_lt_of_le hb h1.1), h1.2.1 b hb]
  · intro i a hia
    exact h2.2.2.1 i a (h1.2.2.1 i a hia)
  · intro n a hn ha hb hcg
    refine h2.2.2.2 n a (le_trans hn h1.1) ha ?_ (h1.2.2.2 n a hn ha hb hcg)
    rw [refsBound_of_instSig (h1.2.1 a (lt_of_lt_of_le ha hn)) n]
    exact hb

lemma pullStepOK_refresh (w : World) (a : Addr) : PullStepOK w (refresh_cache w a) := by
  refine ⟨le_refl _, fun b _ => instSig_refresh w a b, fun i x h => h, ?_⟩
  intro n a' hn ha' hb hcg
  by_cases h : a' = a
  · subst h
    exact cacheGood_refresh w a'
  · exact cacheGood_preserve (refresh_heap_ne w a a' h)
      (fun b _ => refresh_iri_all w a b) hb hcg

lemma cacheGood_reg_irrelevant {w : World} {r : Reg} {a : Addr} (hcg : CacheGood w a) :
    CacheGood { w with reg := r } a := hcg

lemma pullStepOK_setreg (w : World) (iri : Iri) (a : Addr) :
    PullStepOK w { w with reg := set_new_ontology_object w.reg iri a } := by
  refine ⟨le_refl _, fun b _ => rfl, ?_, ?_⟩
  · intro i x h
    exact set_new_keeps w.reg i iri x a h
  · intro n a' _ _ _ hcg
    exact cacheGood_reg_irrelevant hcg

lemma pullStepOK_construct (w : World) (st : InstState) (iri : Iri) :
    PullStepOK w
      { heap := Function.update w.heap w.next st
        next := w.next + 1
        reg := set_new_ontology_object w.reg iri w.next } := by
  refine ⟨Nat.le_succ _, ?_, ?_, ?_⟩
  · intro b hb
    simp [Function.update, Nat.ne_of_lt hb]
  · intro i x h
    exact set_new_keeps w.reg i iri x w.next h
  · intro n a' hn ha' hb hcg
    have hne : a' ≠ w.next := Nat.ne_of_lt (lt_of_lt_of_le ha' hn)
    refine cacheGood_preserve ?_ ?_ hb hcg
    · simp [Function.update, hne]
    · intro b hbn
      have : b ≠ w.next := Nat.ne_of_lt (lt_of_lt_of_le hbn hn)
      simp [Function.update, this]

lemma build_fields_pullStepOK {recurse : Nat → List Iri → World → World × PullRes}
    (hrec : ∀ t l w, PullStepOK w (recurse t l w).1) (flag : Bool) (props : PropsMap) :
    ∀ (fds : List FieldDecl) (w : World),
      PullStepOK w (build_fetched_fields recurse flag props fds w).1 := by
  intro fds
  induction fds with
  | nil => intro w; exact pullStepOK_refl w
  | cons f fs ih =>
    intro w
    cases f with
    | objF pred target =>
      rw [build_fetched_fields]
      cases hp : props.getObj pred with
      | none =>
        simp only []
        cases hb : build_fetched_fields recurse flag props fs w with
        | mk w' res =>
          have := ih w
          rw [hb] at this
          cases res <;> exact this
      | some os =>
        simp only []
        by_cases hf : flag
        · rw [if_pos hf]
          cases hr : recurse target os w with
          | mk w1 r1 =>
            have h1 : PullStepOK w w1 := by
              have := hrec target os w
              rw [hr] at this
              exact this
            cases r1 with
            | ok lst =>
              simp only []
              cases hb : build_fetched_fields recurse flag props fs w1 with
              | mk w' res =>
                have h2 : PullStepOK w1 w' := by
                  have := ih w1
                  rw [hb] at this
                  exact this
                cases res <;> exact pullStepOK_trans h1 h2
            | storeErr => exact h1
            | fuelOut => exact h1
        · rw [if_neg hf]
          cases hb : build_fetched_fields recurse flag props fs w with
          | mk w' res =>
            have := ih w
            rw [hb] at this
            cases res <;> exact this
    | datF pred =>
      rw [build_fetched_fields]
      cases hb : build_fetched_fields recurse flag props fs w with
      | mk w' res =>
        have := ih w
        rw [hb] at this
        cases res <;> exact this

lemma reconcile_pullStepOK {recurse : Nat → List Iri → World → World × PullRes}
    (hrec : ∀ t l w, PullStepOK w (recurse t l w).1) (flag : Bool) (props : PropsMap)
    (a : Addr) :
    ∀ (fds : List FieldDecl) (w : World),
      PullStepOK w (reconcile_connected recurse flag props a fds w).1 := by
  intro fds
  induction fds with
  | nil => intro w; exact pullStepOK_refl w
  | cons f fs ih =>
    intro w
    cases f with
    | objF pred target =>
      rw [reconcile_connected]
      by_cases hf : flag
      · rw [if_pos hf]
        simp only []
        cases hr : recurse target ((pySetS (get_object_property_range_iris w (w.heap a) pred)).filter
            (fun i => i ∉ (props.getObj pred).getD [])) w with
        | mk w1 r1 =>
          have h1 : PullStepOK w w1 := by
            have := hrec target ((pySetS (get_object_property_range_iris w (w.heap a) pred)).filter
              (fun i => i ∉ (props.getObj pred).getD [])) w
            rw [hr] at this
            exact this
          cases r1 with
          | ok lst => exact pullStepOK_trans h1 (ih w1)
          | storeErr => exact h1
          | fuelOut => exact h1
      · rw [if_neg hf]
        exact ih w
    | datF pred =>
      rw [reconcile_connected]
      exact ih w

lemma pull_nodes_pullStepOK {recurse : Nat → List Iri → World → World × PullRes}
    (hrec : ∀ t l w, PullStepOK w (recurse t l w).1) (env : SchemaEnv) (sid : Nat)
    (flag : Bool) :
    ∀ (nodes : List (Iri × PropsMap)) (w : World) (acc : List Addr),
      PullStepOK w (pull_nodes recurse env sid flag nodes w acc).1 := by
  intro nodes
  induction nodes with
  | nil => intro w acc; exact pullStepOK_refl w
  | cons node rest ih =>
    intro w acc
    obtain ⟨iri, props⟩ := node
    rw [pull_nodes]
    cases hb : build_fetched_fields recurse flag props (env sid).fields w with
    | mk w1 res =>
      have h1 : PullStepOK w w1 := by
        have := build_fields_pullStepOK hrec flag props (env sid).fields w
        rw [hb] at this
        exact this
      cases res with
      | error e => exact h1
      | ok newFields =>
        simp only []
        cases hi : get_ontology_object_from_lookup w.reg iri with
        | some a =>
          simp only []
          cases hrc : reconcile_connected recurse flag props a (env sid).fields w1 with
          | mk w2 res2 =>
            have h2 : PullStepOK w1 w2 := by
              have := reconcile_pullStepOK hrec flag props a (env sid).fields w1
              rw [hrc] at this
              exact this
            cases res2 with
            | some e => exact pullStepOK_trans h1 h2
            | none =>
              simp only []
              refine pullStepOK_trans h1 (pullStepOK_trans h2 ?_)
              refine pullStepOK_trans (pullStepOK_refresh w2 a) ?_
              refine pullStepOK_trans (pullStepOK_setreg (refresh_cache w2 a) iri a) ?_
              exact ih _ _
        | none =>
          simp only []
          refine pullStepOK_trans h1 ?_
          refine pullStepOK_trans (pullStepOK_construct w1
            ⟨iri, (env sid).rdf_type, none, none, none, newFields, false⟩ iri) ?_
          refine pullStepOK_trans (pullStepOK_refresh _ w1.next) ?_
          refine pullStepOK_trans (pullStepOK_setreg _ iri w1.next) ?_
          exact ih _ _

lemma pull_from_kg_pullStepOK :
    ∀ (fuel : Nat) (env : SchemaEnv) (sid : Nat) (client : Client) (iris : List Iri)
      (d : Int) (w : World),
      PullStepOK w (pull_from_kg fuel env sid client iris d w).1 := by
  intro fuel
  induction fuel with
  | zero => intro env sid client iris d w; exact pullStepOK_refl w
  | succ fuel ih =>
    intro env sid client iris d w
    rw [pull_from_kg]
    simp only []
    cases hf : client.fetch (pySetS iris) with
    | none => exact pullStepOK_refl w
    | some nodes =>
      exact pull_nodes_pullStepOK (fun t l w' => ih env t client l (next_recursive_depth d) w')
        env sid (flag_collect d) nodes w []

lemma build_fields_err {recurse : Nat → List Iri → World → World × PullRes}
    (flag : Bool) (props : PropsMap) :
    ∀ (fds : List FieldDecl) (w w' : World) (e : PullRes),
      build_fetched_fields recurse flag props fds w = (w', .error e) →
      e = .storeErr ∨ e = .fuelOut := by
  intro fds
  induction fds with
  | nil => intro w w' e h; cases h
  | cons f fs ih =>
    intro w w' e h
    cases f with
    | objF pred target =>
      rw [build_fetched_fields] at h
      cases hp : props.getObj pred with
      | none =>
        rw [hp] at h
        simp only [] at h
        cases hb : build_fetched_fields recurse flag props fs w with
        | mk wb res =>
          rw [hb] at h
          cases res with
          | ok built => cases h
          | error e' => cases h; exact ih w w' e hb
      | some os =>
        rw [hp] at h
        simp only [] at h
        by_cases hf : flag
        · rw [if_pos hf] at h
          cases hr : recurse target os w with
          | mk w1 r1 =>
            rw [hr] at h
            cases r1 with
            | ok lst =>
              simp only [] at h
              cases hb : build_fetched_fields recurse flag props fs w1 with
              | mk wb res =>
                rw [hb] at h
                cases res with
                | ok built => cases h
                | error e' => cases h; exact ih w1 w' e hb
            | storeErr => cases h; exact Or.inl rfl
            | fuelOut => cases h; exact Or.inr rfl
        · rw [if_neg hf] at h
          cases hb : build_fetched_fields recurse flag props fs w with
          | mk wb res =>
            rw [hb] at h
            cases res with
            | ok built => cases h
            | error e' => cases h; exact ih w w' e hb
    | datF pred =>
      rw [build_fetched_fields] at h
      cases hb : build_fetched_fields recurse flag props fs w with
      | mk wb res =>
        rw [hb] at h
        cases res with
        | ok built => cases h
        | error e' => cases h; exact ih w w' e hb

lemma reconcile_err {recurse : Nat → List Iri → World → World × PullRes}
    (flag : Bool) (props : PropsMap) (a : Addr) :
    ∀ (fds : List FieldDecl) (w w' : World) (e : PullRes),
      reconcile_connected recurse flag props a fds w = (w', some e) →
      e = .storeErr ∨ e = .fuelOut := by
  intro fds
  induction fds with
  | nil => intro w w' e h; cases h
  | cons f fs ih =>
    intro w w' e h
    cases f with
    | objF pred target =>
      rw [reconcile_connected] at h
      by_cases hf : flag
      · rw [if_pos hf] at h
        simp only [] at h
        cases hr : recurse target ((pySetS (get_object_property_range_iris w (w.heap a) pred)).filter
            (fun i => i ∉ (props.getObj pred).getD [])) w with
        | mk w1 r1 =>
          rw [hr] at h
          cases r1 with
          | ok lst => exact ih w1 w' e h
          | storeErr => cases h; exact Or.inl rfl
          | fuelOut => cases h; exact Or.inr rfl
      · rw [if_neg hf] at h
        exact ih w w' e h
    | datF pred =>
      rw [reconcile_connected] at h
      exact ih w w' e h

lemma pull_nodes_cache_good {recurse : Nat → List Iri → World → World × PullRes}
    (hrec : ∀ t l w, PullStepOK w (recurse t l w).1) (env : SchemaEnv) (sid : Nat)
    (flag : Bool) :
    ∀ (nodes : List (Iri × PropsMap)) (w : World) (acc : List Addr) (iri : Iri)
      (props : PropsMap) (a : Addr) (n : Nat),
      (iri, props) ∈ nodes → w.reg iri = some a → n ≤ w.next → a < n →
      (w.heap a).fields.all (fieldRefsBoundB n) = true →
      ∀ lst, (pull_nodes recurse env sid flag nodes w acc).2 = .ok lst →
        CacheGood (pull_nodes recurse env sid flag nodes w acc).1 a := by
  intro nodes
  induction nodes with
  | nil => intro w acc iri props a n hmem; cases hmem
  | cons node rest ih =>
    obtain ⟨iri0, props0⟩ := node
    intro w acc iri props a n hmem hreg hn ha hb lst hok
    rw [pull_nodes] at hok ⊢
    cases hbld : build_fetched_fields recurse flag props0 (env sid).fields w with
    | mk w1 res =>
      have h1 : PullStepOK w w1 := by
        have := build_fields_pullStepOK hrec flag props0 (env sid).fields w
        rw [hbld] at this
        exact this
      have hreg1 : w1.reg iri = some a := h1.2.2.1 iri a hreg
      have hn1 : n ≤ w1.next := le_trans hn h1.1
      have hb1 : (w1.heap a).fields.all (fieldRefsBoundB n) = true := by
        rw [refsBound_of_instSig (h1.2.1 a (lt_of_lt_of_le ha hn)) n]
        exact hb
      rw [hbld] at hok
      cases res with
      | error e =>
        rcases build_fields_err flag props0 (env sid).fields w w1 e hbld with he | he <;>
          (subst he; cases hok)
      | ok newFields =>
        simp only [] at hok ⊢
        cases hi : get_ontology_object_from_lookup w.reg iri0 with
        | some a0 =>
          simp only [hi] at hok ⊢
          cases hrc : reconcile_connected recurse flag props0 a0 (env sid).fields w1 with
          | mk w2 res2 =>
            have h2 : PullStepOK w1 w2 := by
              have := reconcile_pullStepOK hrec flag props0 a0 (env sid).fields w1
              rw [hrc] at this
              exact this
            rw [hrc] at hok
            cases res2 with
            | some e =>
              rcases reconcile_err flag props0 a0 (env sid).fields w1 w2 e hrc with he | he <;>
                (subst he; cases hok)
            | none =>
              simp only [] at hok ⊢
              rcases List.mem_cons.mp hmem with heq | hmem'
              · -- this node is the tracked instance: its cache is refreshed here
                obtain ⟨he1, he2⟩ := Prod.mk.injEq .. ▸ heq
                subst he1
                subst he2
                have ha0 : a0 = a := by
                  have hi' : w.reg iri = some a0 := hi
                  rw [hreg] at hi'
                  exact Option.some.injEq .. ▸ hi'.symm
                subst ha0
                have hcg3 : CacheGood (refresh_cache w2 a0) a0 := cacheGood_refresh w2 a0
                have hstep : PullStepOK w
                    { refresh_cache w2 a0 with
                      reg := set_new_ontology_object (refresh_cache w2 a0).reg iri a0 } :=
                  pullStepOK_trans h1 (pullStepOK_trans h2 (pullStepOK_trans
                    (pullStepOK_refresh w2 a0) (pullStepOK_setreg (refresh_cache w2 a0) iri a0)))
                have hrest := pull_nodes_pullStepOK hrec env sid flag rest
                  { refresh_cache w2 a0 with
                    reg := set_new_ontology_object (refresh_cache w2 a0).reg iri a0 }
                  (acc ++ [a0])
                refine hrest.2.2.2 n a0 (le_trans hn hstep.1) ha ?_ hcg3
                rw [refsBound_of_instSig (hstep.2.1 a0 (lt_of_lt_of_le ha hn)) n]
                exact hb
              · -- the tracked node sits further in the batch
                have hstep : PullStepOK w
                    { refresh_cache w2 a0 with
                      reg := set_new_ontology_object (refresh_cache w2 a0).reg iri0 a0 } :=
                  pullStepOK_trans h1 (pullStepOK_trans h2 (pullStepOK_trans
                    (pullStepOK_refresh w2 a0) (pullStepOK_setreg (refresh_cache w2 a0) iri0 a0)))
                refine ih _ (acc ++ [a0]) iri props a n hmem' (hstep.2.2.1 iri a hreg)
                  (le_trans hn hstep.1) ha ?_ lst hok
                rw [refsBound_of_instSig (hstep.2.1 a (lt_of_lt_of_le ha hn)) n]
                exact hb
        | none =>
          simp only [hi] at hok ⊢
          rcases List.mem_cons.mp hmem with heq | hmem'
          · obtain ⟨he1, he2⟩ := Prod.mk.injEq .. ▸ heq
            subst he1
            have hi' : w.reg iri = some a := hreg
            rw [show w.reg iri = (none : Option Addr) from hi] at hi'
            cases hi'
          · have hstep : PullStepOK w
                { heap := Function.update w1.heap w1.next
                    ⟨iri0, (env sid).rdf_type, none, none, none, newFields, false⟩
                  next := w1.next + 1
                  reg := set_new_ontology_object w1.reg iri0 w1.next } :=
              pullStepOK_trans h1 (pullStepOK_construct w1
                ⟨iri0, (env sid).rdf_type, none, none, none, newFields, false⟩ iri0)
            have hstep2 : PullStepOK w
                { refresh_cache
                    { heap := Function.update w1.heap w1.next
                        ⟨iri0, (env sid).rdf_type, none, none, none, newFields, false⟩
                      next := w1.next + 1
                      reg := set_new_ontology_object w1.reg iri0 w1.next } w1.next with
                  reg := set_new_ontology_object (refresh_cache
                    { heap := Function.update w1.heap w1.next
                        ⟨iri0, (env sid).rdf_type, none, none, none, newFields, false⟩
                      next := w1.next + 1
                      reg := set_new_ontology_object w1.reg iri0 w1.next } w1.next).reg
                    iri0 w1.next } :=
              pullStepOK_trans hstep (pullStepOK_trans (pullStepOK_refresh _ w1.next)
                (pullStepOK_setreg _ iri0 w1.next))
            refine ih _ (acc ++ [w1.next]) iri props a n hmem' (hstep2.2.2.1 iri a hreg)
              (le_trans hn hstep2.1) ha ?_ lst hok
            rw [refsBound_of_instSig (hstep2.2.1 a (lt_of_lt_of_le ha hn)) n]
            exact hb

lemma pull_from_kg_cache_good (fuel : Nat) (env : SchemaEnv) (sid : Nat) (client : Client)
    (iris : List Iri) (d : Int) (w : World) (nodes : List (Iri × PropsMap)) (iri : Iri)
    (props : PropsMap) (a : Addr) (hW : WFWorld w)
    (hf : client.fetch (pySetS iris) = some nodes) (hmem : (iri, props) ∈ nodes)
    (hreg : w.reg iri = some a) :
    ∀ lst, (pull_from_kg (fuel + 1) env sid client iris d w).2 = .ok lst →
      CacheGood (pull_from_kg (fuel + 1) env sid client iris d w).1 a := by
  intro lst hok
  rw [pull_from_kg] at hok ⊢
  simp only [] at hok ⊢
  rw [hf] at hok ⊢
  exact pull_nodes_cache_good
    (fun t l w' => pull_from_kg_pullStepOK fuel env t client l (next_recursive_depth d) w')
    env sid (flag_collect d) nodes w [] iri props a w.next hmem hreg (le_refl _)
    (hW.1 iri a hreg) (hW.2 a (hW.1 iri a hreg)) lst hok

lemma wC6_wf : WFWorld wC6 := by
  refine ⟨?_, ?_⟩
  · intro i a h
    have h' : (if i = "urn:A" then some 0 else none : Option Addr) = some a := h
    by_cases hi : i = "urn:A"
    · rw [if_pos hi] at h'
      cases h'
      decide
    · rw [if_neg hi] at h'
      cases h'
  · intro b _
    exact (by decide : instA6.fields.all (fieldRefsBoundB 1) = true)

/-- C6: when `pull_from_kg` fetches an identifier whose instance is already
resident in the registry, (a) the live property state (`instSig`: identifier,
type, comment and every declared field's range, references compared by
identifier) of every instance resident before the call is unchanged — the
fetched values neither replace nor merge into it; (b) whenever the depth
budget permits recursion, the reconciliation step recursively pulls, per
object-property field, exactly the identifiers populated in memory minus the
freshly fetched ones (`reconcile_pull_iris`); and (c) if the pull returns
successfully, the resident instance's cache snapshot equals the snapshot of
its now-current in-memory property state with references reduced to bare
identifiers (`CacheGood`). -/
theorem pull_resident_frame_recursion_cache :
    (∀ (fuel : Nat) (env : SchemaEnv) (sid : Nat) (client : Client) (iris : List Iri)
        (d : Int) (w : World) (b : Addr), b < w.next →
        instSig ((pull_from_kg fuel env sid client iris d w).1.heap b) = instSig (w.heap b)) ∧
    (∀ (recurse : Nat → List Iri → World → World × PullRes) (props : PropsMap)
        (a : Addr) (pred : Iri) (target : Nat) (fs : List FieldDecl) (w : World),
        reconcile_connected recurse true props a (.objF pred target :: fs) w =
          match recurse target (reconcile_pull_iris w a pred props) w with
          | (w1, .ok _) => reconcile_connected recurse true props a fs w1
          | (w1, e) => (w1, some e)) ∧
    (∀ (fuel : Nat) (env : SchemaEnv) (sid : Nat) (client : Client) (iris : List Iri)
        (d : Int) (w : World) (nodes : List (Iri × PropsMap)) (iri : Iri)
        (props : PropsMap) (a : Addr) (lst : List Addr),
        WFWorld w → client.fetch (pySetS iris) = some nodes → (iri, props) ∈ nodes →
        w.reg iri = some a →
        (pull_from_kg (fuel + 1) env sid client iris d w).2 = .ok lst →
        CacheGood (pull_from_kg (fuel + 1) env sid client iris d w).1 a) := by
  refine ⟨?_, ?_, ?_⟩
  · intro fuel env sid client iris d w b hb
    exact (pull_from_kg_pullStepOK fuel env sid client iris d w).2.1 b hb
  · intro recurse props a pred target fs w
    rw [reconcile_connected]
    simp only [if_true, reconcile_pull_iris]
  · intro fuel env sid client iris d w nodes iri props a lst hW hf hmem hreg hok
    exact pull_from_kg_cache_good fuel env sid client iris d w nodes iri props a
      hW hf hmem hreg lst hok

/-- Witness for C6 on the concrete scenario: pulling `urn:A`, already resident
at address 0 with an in-memory reference to `urn:B` absent from the fetched
edges, leaves its live state intact and leaves its cache equal to the snapshot
of its current state. -/
theorem pull_resident_frame_recursion_cache_witness :
    instSig ((pull_from_kg 3 envC6 0 clientC6 ["urn:A"] 1 wC6).1.heap 0)
        = instSig (wC6.heap 0) ∧
      CacheGood (pull_from_kg 3 envC6 0 clientC6 ["urn:A"] 1 wC6).1 0 :=
  ⟨pull_resident_frame_recursion_cache.1 3 envC6 0 clientC6 ["urn:A"] 1 wC6 0 (by decide),
   pull_resident_frame_recursion_cache.2.2 2 envC6 0 clientC6 ["urn:A"] 1 wC6
     [("urn:A", ⟨[], []⟩)] "urn:A" ⟨[], []⟩ 0 [0] wC6_wf (by decide) (by decide)
     (by decide) (by decide)⟩
